import Mathlib

/-
Verification of the per-room game session engine of `server/index.js`
(a real-time drawing-and-guessing game server).

The engine is embedded shallowly:
  * a `Room` record mirrors the room object stored in the `rooms` map,
    with the two timer handles (`gameTimerId`, `roundEndTimerId`) modelled
    semantically: `gameTimerPhase = some ph` means a live interval created
    for phase `ph` exists (`setInterval` sets it, `clearInterval` clears it),
    and `roundEndPending = true` means a live `setTimeout` for the
    inter-round delay exists;
  * every socket handler / helper function becomes a pure function
    `... → Room → Room × List Event` (`Event` collects the `io.emit` /
    `socket.emit` payloads the claims talk about); `handlePlayerDisconnect`
    returns `Option Room × List Event` because it may delete the room;
  * `Math.random`-driven choices (word offers, auto-selection) are passed
    in as oracle parameters, so theorems quantify over every possible
    random outcome;
  * JS object mutation through `Array.prototype.find` is modelled by
    `updateFirst`, which rewrites the first list entry matching the
    predicate (exactly the object that `find` would have returned).
-/

set_option linter.unusedVariables false

namespace Sketch

/-- Phase of a room, the `status` field of `gameState` in `server/index.js`. -/
inductive Status where
  | waiting
  | selecting
  | drawing
  | round_end
  | game_end
deriving DecidableEq, Repr

/-- One entry of `room.players`; `id` is the (opaque) socket id. -/
structure Player where
  id : Nat
  username : String
  score : Int
  isHost : Bool
  isConnected : Bool
  hasGuessedCorrectly : Bool
deriving DecidableEq, Repr

/-- The `room.gameState` object. -/
structure GameState where
  status : Status
  currentRound : Nat
  totalRounds : Nat
  timeLeft : Int
  currentDrawer : Option Nat
  word : String
  wordHint : String
  winnerId : Option Nat
  roundDuration : Int
deriving DecidableEq, Repr

/-- A room object.  `gameTimerPhase` (resp. `roundEndPending`) records
whether a live `setInterval` (resp. round-end `setTimeout`) exists. -/
structure Room where
  players : List Player
  gameState : GameState
  wordChoices : List String
  gameTimerPhase : Option Status
  roundEndPending : Bool
  lastDrawerIndex : Int
deriving DecidableEq, Repr

/-- Outbound emissions relevant to the claims. -/
inductive Event where
  | round_end_details (word : String) (scores : List (Nat × Int))
  | game_state
  | room_update
  | word_choices (ws : List String)
  | system_message (tag : String)
  | new_chat_message (text : String) (ctype : String)
  | error_message (tag : String)
  | request_rejoin_details
deriving DecidableEq, Repr

/-- Test for the word-reveal broadcast of `endRound`. -/
def Event.isReveal : Event → Bool
  | Event.round_end_details _ _ => true
  | _ => false

-- Configuration constants of `server/index.js`.

def DEFAULT_TOTAL_ROUNDS : Nat := 3

def TIME_FOR_WORD_SELECTION : Int := 15

def DEFAULT_ROUND_DURATION : Int := 60

def TIME_BETWEEN_ROUNDS : Int := 5

def MAX_WORD_CHOICES : Nat := 3

/-- The static word dictionary of `server/index.js`. -/
def words : List String :=
  ["apple", "banana", "car", "dog", "elephant", "fish", "guitar", "house",
   "island", "jacket", "kite", "lamp", "mountain", "notebook", "ocean",
   "pizza", "queen", "robot", "sun", "tree", "umbrella", "violin", "window",
   "xylophone", "yacht", "zebra", "airplane", "beach", "castle", "dinosaur",
   "earth", "fire", "giraffe", "helicopter", "ice cream", "jungle", "kangaroo",
   "lighthouse", "moon", "ninja", "octopus", "penguin", "rainbow", "spaceship",
   "tiger", "unicorn", "volcano", "waterfall", "fox", "yogurt", "zombie",
   "astronaut", "ballet", "cactus", "dragon", "energy", "forest", "galaxy",
   "honeybee", "island", "jigsaw", "kangaroo", "lizard", "meteor", "necklace",
   "oyster", "pyramid", "quokka", "rocket", "satellite", "tornado", "utopia",
   "vortex", "whale", "zeppelin", "avocado", "basketball", "campfire",
   "diamond", "eclipse", "fireworks", "glacier", "hourglass", "iceberg",
   "jukebox", "koala", "lantern", "meadow", "nightmare", "overture", "parrot",
   "quest", "riddle", "starfish", "treasure", "underwater", "violet", "windmill"]

/-- Whitespace test backing the JS `String.prototype.trim` model. -/
def isSpaceChar (c : Char) : Bool := c = ' ' ∨ c = '\t' ∨ c = '\n' ∨ c = '\r'

/-- JS `String.prototype.trim`: strip leading and trailing whitespace. -/
def jsTrim (s : String) : String :=
  String.mk (((s.data.dropWhile isSpaceChar).reverse.dropWhile isSpaceChar).reverse)

/-- JS `String.prototype.toLowerCase` (over the ASCII range the word list
and usernames use). -/
def jsToLower (s : String) : String :=
  String.mk (s.data.map Char.toLower)

/-- Character mask used by `generateWordHint`: spaces stay, everything else
becomes an underscore. -/
def maskChar (c : Char) : Char := if c = ' ' then ' ' else '_'

/-- `generateWordHint` from `server/index.js`:
`word.split('').map(ch => ch === ' ' ? ' ' : '_').join(' ')`
with empty (falsy) words mapped to the empty hint. -/
def generateWordHint (word : String) : String :=
  if word = "" then ""
  else String.mk (List.intersperse ' ' (word.data.map maskChar))

/-- Rewrite the first element satisfying `pred` (the element JS
`Array.prototype.find` would return) with `f`. -/
def updateFirst (pred : Player → Bool) (f : Player → Player) : List Player → List Player
  | [] => []
  | p :: ps => if pred p then f p :: ps else p :: updateFirst pred f ps

/-- `endRound(roomId, reason)` from `server/index.js`, for one room.
Already-ended rooms take the early-return path (a `clearInterval` of any
stored interval, no emission, no field assignment). -/
def endRound (reason : String) (r : Room) : Room × List Event :=
  if r.gameState.status = Status.round_end ∨ r.gameState.status = Status.game_end then
    ({ r with gameTimerPhase := none }, [])
  else
    let reveal := Event.round_end_details r.gameState.word
      (r.players.map (fun p => (p.id, p.score)))
    ({ r with
        gameTimerPhase := none,
        gameState := { r.gameState with
          status := Status.round_end,
          timeLeft := TIME_BETWEEN_ROUNDS },
        players := r.players.map (fun p => { p with hasGuessedCorrectly := false }),
        roundEndPending := true },
     [reveal, Event.game_state])

/-- State mutation shared by explicit word selection and the
selection-timeout auto-selection: enter `drawing` with word `w`, the hint of
`w`, a fresh round clock, and a live drawing interval. -/
def selectWordApply (w : String) (r : Room) : Room :=
  { r with
      gameTimerPhase := some Status.drawing,
      gameState := { r.gameState with
        status := Status.drawing,
        word := w,
        wordHint := generateWordHint w,
        timeLeft := if r.gameState.roundDuration = 0 then DEFAULT_ROUND_DURATION
                    else r.gameState.roundDuration } }

/-- The `select_word` handler: guarded on the sender being the current
drawer, the phase being `selecting`, and the word being offered. -/
def selectWord (sid : Nat) (w : String) (r : Room) : Room × List Event :=
  if r.gameState.currentDrawer ≠ some sid ∨ r.gameState.status ≠ Status.selecting then
    (r, [Event.error_message "not_your_turn"])
  else if ¬ (w ∈ r.wordChoices) then
    (r, [Event.error_message "invalid_word"])
  else
    (selectWordApply w r, [Event.game_state, Event.system_message "word_selected"])

/-- `handleTimerTick(roomId, phase)` for one room.  `autoIdx` stands for
`Math.floor(Math.random() * wordChoices.length)` and `fallback` for the
`getRandomWords(1)` dictionary fallback.  A tick whose `phase` no longer
matches the live status only performs the `clearInterval` of the stored
interval and returns. -/
def handleTimerTick (phase : Status) (autoIdx : Nat) (fallback : String) (r : Room) :
    Room × List Event :=
  if r.gameState.status ≠ phase then
    ({ r with gameTimerPhase := none }, [])
  else
    let r1 := { r with gameState := { r.gameState with timeLeft := r.gameState.timeLeft - 1 } }
    if r1.gameState.timeLeft ≤ 0 then
      let r2 := { r1 with gameTimerPhase := none }
      if phase = Status.selecting then
        let w := match r2.wordChoices[autoIdx]? with
          | some cw => if cw = "" then fallback else cw
          | none => fallback
        ({ r2 with
            gameTimerPhase := some Status.drawing,
            gameState := { r2.gameState with
              status := Status.drawing,
              word := w,
              wordHint := generateWordHint w,
              timeLeft := if r2.gameState.roundDuration = 0 then DEFAULT_ROUND_DURATION
                          else r2.gameState.roundDuration } },
         [Event.game_state, Event.system_message "auto_selected", Event.game_state])
      else if phase = Status.drawing then
        let res := endRound "time_up" r2
        (res.1, [Event.game_state, Event.system_message "times_up"] ++ res.2)
      else
        (r2, [Event.game_state])
    else
      (r1, [Event.game_state])

/-- Mutation of the matched guesser performed by the `guess` handler:
`player.hasGuessedCorrectly = true; player.score += scoreGain`. -/
def applyGuessScore (sid : Nat) (gain : Int) (ps : List Player) : List Player :=
  updateFirst (fun q => q.id == sid)
    (fun q => { q with hasGuessedCorrectly := true, score := q.score + gain }) ps

/-- Mutation of the drawer performed by the `guess` handler:
`const drawer = players.find(p => p.id === currentDrawer); if (drawer) drawer.score += 20`. -/
def applyDrawerBonus (cd : Option Nat) (ps : List Player) : List Player :=
  match cd with
  | some d =>
    if (ps.find? (fun q => q.id == d)).isSome then
      updateFirst (fun q => q.id == d) (fun q => { q with score := q.score + 20 }) ps
    else ps
  | none => ps

/-- The all-guessed test of the `guess` handler: every connected
non-drawer has guessed correctly. -/
def allGuessedAfter (r1 : Room) : Bool :=
  (r1.players.filter
    (fun q => q.isConnected && ¬ (r1.gameState.currentDrawer = some q.id))).all
    (fun q => q.hasGuessedCorrectly)

/-- The `guess` handler for one room.  Guard order follows the source:
player lookup and connectivity, then phase, then drawer, then the
already-guessed flag.  `Math.floor(timeBonus * 1.5)` is exact for integer
`timeBonus`, giving `(3 * timeBonus) / 2`. -/
def guessOp (sid : Nat) (g : String) (r : Room) : Room × List Event :=
  let tg := jsTrim g
  if tg = "" then (r, [])
  else
    match r.players.find? (fun p => p.id == sid) with
    | none => (r, [])
    | some player =>
      if ¬ player.isConnected then (r, [])
      else if r.gameState.status ≠ Status.drawing then
        (r, [Event.system_message "only_while_drawing"])
      else if r.gameState.currentDrawer = some sid then
        (r, [Event.system_message "own_word"])
      else if player.hasGuessedCorrectly then
        (r, [Event.system_message "already_guessed"])
      else if jsToLower tg = jsTrim (jsToLower r.gameState.word) then
        let scoreGain : Int := 50 + (3 * max 0 r.gameState.timeLeft) / 2
        let ps2 := applyDrawerBonus r.gameState.currentDrawer
          (applyGuessScore sid scoreGain r.players)
        let r1 := { r with players := ps2 }
        if allGuessedAfter r1 then
          let res := endRound "all_guessed" r1
          (res.1, [Event.new_chat_message "guessed_the_word" "correct_guess",
                   Event.room_update, Event.system_message "everyone_guessed"] ++ res.2)
        else
          (r1, [Event.new_chat_message "guessed_the_word" "correct_guess", Event.room_update])
      else
        (r, [Event.new_chat_message tg "normal"])

/-- Score and guess-flag reset applied to every player by `start_game`. -/
def resetScore (p : Player) : Player :=
  { p with score := (0 : Int), hasGuessedCorrectly := false }

/-- The `start_game` handler.  `choices` stands for the
`getRandomWords(MAX_WORD_CHOICES)` draw.  There is no phase guard in the
source: any phase accepts a restart from the host with two connected
players. -/
def startGame (sid : Nat) (reqRounds : Option Nat) (choices : List String) (r : Room) :
    Room × List Event :=
  match r.players.find? (fun p => p.id == sid) with
  | none => (r, [Event.error_message "host_only"])
  | some player =>
    if ¬ player.isHost then (r, [Event.error_message "host_only"])
    else if (r.players.filter (fun p => p.isConnected)).length < 2 then
      (r, [Event.error_message "need_two_players"])
    else
      let ps1 := r.players.map resetScore
      let connected := ps1.filter (fun p => p.isConnected)
      match (connected.find? (fun p => p.isHost && p.isConnected)).orElse (fun _ => connected.head?) with
      | none => (r, [])
      | some fd =>
        let ldi : Int := match ps1.findIdx? (fun p => p.id == fd.id) with
          | some i => (i : Int)
          | none => -1
        let newTotal : Nat := match reqRounds with
          | some n => if 1 ≤ n then n else DEFAULT_TOTAL_ROUNDS
          | none => DEFAULT_TOTAL_ROUNDS
        ({ r with
            players := ps1,
            lastDrawerIndex := ldi,
            wordChoices := choices,
            gameTimerPhase := some Status.selecting,
            roundEndPending := false,
            gameState := { r.gameState with
              status := Status.selecting,
              currentRound := 1,
              totalRounds := newTotal,
              timeLeft := TIME_FOR_WORD_SELECTION,
              currentDrawer := some fd.id,
              word := "",
              wordHint := "",
              winnerId := none } },
         [Event.system_message "game_starting", Event.game_state, Event.room_update,
          Event.word_choices choices])

/-- Connectivity test behind `room.players[i]?.isConnected`. -/
def connAt (ps : List Player) (i : Nat) : Bool :=
  match ps[i]? with
  | some p => p.isConnected
  | none => false

/-- The drawer-selection loop of `startNextRound`: starting at array
position `start` (taken modulo the roster length), return the first
position holding a connected player, trying at most `fuel` positions
(the loop runs `attempts < room.players.length` times). -/
def findNextDrawer (ps : List Player) (start : Nat) : Nat → Option Nat
  | 0 => none
  | fuel + 1 =>
    let idx := start % ps.length
    if connAt ps idx then some idx
    else findNextDrawer ps (start + 1) (fuel)

/-- `startNextRound(roomId)`; `choices` stands for the fresh
`getRandomWords(MAX_WORD_CHOICES)` offer. -/
def startNextRound (choices : List String) (r : Room) : Room × List Event :=
  let r0 := { r with gameState := { r.gameState with currentRound := r.gameState.currentRound + 1 } }
  let connected := r0.players.filter (fun p => p.isConnected)
  if connected.length < 1 then
    ({ r0 with gameState := { r0.gameState with
        status := Status.waiting, currentDrawer := none, word := "", wordHint := "" } },
     [Event.system_message "not_enough_players", Event.game_state])
  else if connected.length < 2 ∧ r0.gameState.status ≠ Status.waiting then
    ({ r0 with gameState := { r0.gameState with
        status := Status.waiting, currentDrawer := none, word := "", wordHint := "" } },
     [Event.system_message "waiting_for_players", Event.game_state])
  else
    match findNextDrawer r0.players (r0.lastDrawerIndex + 1).toNat r0.players.length with
    | none =>
      ({ r0 with gameState := { r0.gameState with status := Status.waiting } },
       [Event.game_state, Event.system_message "no_drawer_found"])
    | some idx =>
      match r0.players[idx]? with
      | none => (r0, [])
      | some nd =>
        ({ r0 with
            lastDrawerIndex := (idx : Int),
            wordChoices := choices,
            gameTimerPhase := some Status.selecting,
            gameState := { r0.gameState with
              status := Status.selecting,
              currentDrawer := some nd.id,
              word := "",
              wordHint := "",
              timeLeft := TIME_FOR_WORD_SELECTION } },
         [Event.system_message "next_round", Event.game_state, Event.word_choices choices])

/-- Stable insertion (descending by score) into an already stably sorted
list: the new element comes from earlier in the original order, so it goes
in front of entries with an equal score. -/
def insertDesc (p : Player) : List Player → List Player
  | [] => [p]
  | q :: qs => if q.score ≤ p.score then p :: q :: qs else q :: insertDesc p qs

/-- The stable descending-by-score sort performed by
`[...room.players].filter(..).sort((a, b) => b.score - a.score)`
(JS `Array.prototype.sort` is stable). -/
def sortByScoreDesc : List Player → List Player
  | [] => []
  | p :: l => insertDesc p (sortByScoreDesc l)

/-- `endGame(roomId)`: clear both timers, compute the winner and freeze the
state in `game_end`. -/
def endGame (r : Room) : Room × List Event :=
  let sorted := sortByScoreDesc
    (r.players.filter (fun p => p.isConnected || decide ((0 : Int) < p.score)))
  ({ r with
      gameTimerPhase := none,
      roundEndPending := false,
      gameState := { r.gameState with
        status := Status.game_end,
        winnerId := sorted.head?.map (fun p => p.id),
        timeLeft := 0 } },
   [Event.game_state, Event.system_message "game_over"])

/-- Body of the `setTimeout` scheduled by `endRound`: advance to the next
round, or end the game after the final round. -/
def roundEndFire (choices : List String) (r : Room) : Room × List Event :=
  if r.gameState.totalRounds ≤ r.gameState.currentRound then endGame r
  else startNextRound choices r

/-- The `join_room` handler for an existing room: either re-activate the
record matching the same socket id, or append a new player (host only if
no connected player exists), subject to the username-collision and
room-capacity checks. -/
def joinRoom (sid : Nat) (uname : String) (r : Room) : Room × List Event :=
  if jsTrim uname = "" then (r, [])
  else
    let tu := jsTrim uname
    match r.players.find? (fun p => p.id == sid) with
    | some _ =>
      let ps := updateFirst (fun p => p.id == sid)
        (fun p => { p with isConnected := true, username := tu }) r.players
      ({ r with players := ps }, [Event.game_state, Event.room_update])
    | none =>
      if (r.players.find? (fun p => jsToLower p.username == jsToLower tu && p.isConnected)).isSome then
        (r, [Event.error_message "username_taken"])
      else if r.gameState.status ≠ Status.waiting ∧
          8 ≤ (r.players.filter (fun p => p.isConnected)).length then
        (r, [Event.error_message "room_full"])
      else
        let newPlayer : Player :=
          { id := sid, username := tu, score := 0,
            isHost := (r.players.filter (fun p => p.isConnected)).length = 0,
            isConnected := true, hasGuessedCorrectly := false }
        ({ r with players := r.players ++ [newPlayer] },
         [Event.system_message "joined", Event.game_state, Event.room_update])

/-- The `client_reconnected_to_room` handler for an existing room. -/
def clientReconnected (sid : Nat) (r : Room) : Room × List Event :=
  match r.players.find? (fun p => p.id == sid) with
  | some _ =>
    let ps := updateFirst (fun p => p.id == sid)
      (fun p => { p with isConnected := true }) r.players
    ({ r with players := ps }, [Event.game_state, Event.room_update])
  | none => (r, [Event.request_rejoin_details])

/-- `handlePlayerDisconnect` for one room: mark the player disconnected,
delete the room if it empties outside `game_end` (result `none`), promote
the first remaining connected player if the host left, end the round if the
drawer left mid-`selecting`/`drawing`, and fall back to `waiting` when
fewer than two players remain outside `waiting`/`game_end`. -/
def handlePlayerDisconnect (sid : Nat) (r : Room) : Option Room × List Event :=
  match r.players.find? (fun p => p.id == sid) with
  | none => (some r, [])
  | some player =>
    if ¬ player.isConnected then (some r, [])
    else
      let ps1 := updateFirst (fun p => p.id == sid)
        (fun p => { p with isConnected := false }) r.players
      let connected := ps1.filter (fun p => p.isConnected)
      if connected.length = 0 ∧ r.gameState.status ≠ Status.game_end then
        (none, [Event.system_message "left"])
      else
        let ps2 := if player.isHost ∧ 0 < connected.length then
            updateFirst (fun p => p.isConnected) (fun p => { p with isHost := true }) ps1
          else ps1
        let r2 := { r with players := ps2 }
        if r2.gameState.currentDrawer = some sid ∧
            (r2.gameState.status = Status.selecting ∨ r2.gameState.status = Status.drawing) then
          let res := endRound "drawer_disconnected" { r2 with gameTimerPhase := none }
          (some res.1,
           [Event.system_message "left", Event.room_update,
            Event.system_message "drawer_left"] ++ res.2)
        else if connected.length < 2 ∧ r2.gameState.status ≠ Status.waiting ∧
            r2.gameState.status ≠ Status.game_end then
          (some { r2 with
              gameTimerPhase := none,
              roundEndPending := false,
              gameState := { r2.gameState with
                status := Status.waiting, currentDrawer := none, word := "", wordHint := "" } },
           [Event.system_message "left", Event.room_update,
            Event.system_message "not_enough_players", Event.game_state])
        else
          (some r2, [Event.system_message "left", Event.room_update])

/-- The room built by `create_room` for creator socket `sid` with the given
(valid) username. -/
def createRoom (sid : Nat) (uname : String) : Room :=
  let creator : Player :=
    { id := sid, username := jsTrim uname, score := 0, isHost := true,
      isConnected := true, hasGuessedCorrectly := false }
  let gs : GameState :=
    { status := Status.waiting, currentRound := 0,
      totalRounds := DEFAULT_TOTAL_ROUNDS, timeLeft := 0, currentDrawer := none,
      word := "", wordHint := "", winnerId := none,
      roundDuration := DEFAULT_ROUND_DURATION }
  { players := [creator],
    gameState := gs,
    wordChoices := [],
    gameTimerPhase := none,
    roundEndPending := false,
    lastDrawerIndex := -1 }

/-- One externally triggered transition of a live room: a socket event
(join, reconnect, start, select, guess, leave/disconnect) or a timer
callback.  Random draws appear as universally quantified parameters, so
the relation covers every possible outcome. -/
inductive Step : Room → Room → Prop where
  | join (sid : Nat) (uname : String) (r : Room) : Step r (joinRoom sid uname r).1
  | reconnect (sid : Nat) (r : Room) : Step r (clientReconnected sid r).1
  | start (sid : Nat) (reqRounds : Option Nat) (choices : List String) (r : Room) :
      Step r (startGame sid reqRounds choices r).1
  | select (sid : Nat) (w : String) (r : Room) : Step r (selectWord sid w r).1
  | doGuess (sid : Nat) (g : String) (r : Room) : Step r (guessOp sid g r).1
  | tick (phase : Status) (autoIdx : Nat) (fallback : String) (r : Room) :
      Step r (handleTimerTick phase autoIdx fallback r).1
  | fire (choices : List String) (r : Room) (h : r.roundEndPending = true) :
      Step r (roundEndFire choices { r with roundEndPending := false }).1
  | disconnect (sid : Nat) (r r' : Room) (h : (handlePlayerDisconnect sid r).1 = some r') :
      Step r r'

/-- Room states reachable from room creation through the server's own
handlers. -/
inductive Reachable : Room → Prop where
  | init (sid : Nat) (uname : String) (h : jsTrim uname ≠ "") : Reachable (createRoom sid uname)
  | step {r r' : Room} : Reachable r → Step r r' → Reachable r'

/-! ### C7: the hint mask -/

lemma countP_intersperse_space (p : Char → Bool) (hp : p ' ' = false) :
    ∀ l : List Char, (List.intersperse ' ' l).countP p = l.countP p
  | [] => by simp [List.intersperse]
  | [a] => by simp [List.intersperse]
  | a :: b :: t => by
    have ih := countP_intersperse_space p hp (b :: t)
    simp only [List.intersperse] at ih ⊢
    simp [List.countP_cons, hp] at ih ⊢
    omega

lemma mask_mem_cases (c : Char) : maskChar c = '_' ∨ maskChar c = ' ' := by
  by_cases h : c = ' ' <;> simp [maskChar, h]

lemma mem_intersperse_space (c : Char) :
    ∀ l : List Char, c ∈ List.intersperse ' ' l → c ∈ l ∨ c = ' '
  | [] => by simp [List.intersperse]
  | [a] => by
    intro h
    simp only [List.intersperse_singleton] at h
    exact Or.inl h
  | a :: b :: t => by
    intro h
    rw [List.intersperse_cons_cons] at h
    simp only [List.mem_cons] at h ⊢
    rcases h with h | h | h
    · exact Or.inl (Or.inl h)
    · exact Or.inr h
    · rcases mem_intersperse_space c (b :: t) h with h' | h'
      · simp only [List.mem_cons] at h'
        rcases h' with h' | h'
        · exact Or.inl (Or.inr (Or.inl h'))
        · exact Or.inl (Or.inr (Or.inr h'))
      · exact Or.inr h'

/-- C7.  The hint generated for a word has one placeholder token per
non-space character of the word (spaces of the word stay spaces, and every
hint character is either a placeholder or a space), so the number of
non-space tokens of the hint equals the word's non-space character count;
in particular the hint for "apple" is "_ _ _ _ _". -/
theorem C7_hint_mask (w : String) :
    (generateWordHint w).data.countP (fun c => c ≠ ' ') = w.data.countP (fun c => c ≠ ' ') ∧
    (generateWordHint w).data.countP (fun c => c = '_') = w.data.countP (fun c => c ≠ ' ') ∧
    ((generateWordHint w).data.all (fun c => c = '_' ∨ c = ' ') = true) ∧
    generateWordHint "apple" = "_ _ _ _ _" := by
  refine ⟨?_, ?_, ?_, by rfl⟩
  · by_cases hw : w = ""
    · subst hw; rfl
    · simp only [generateWordHint, if_neg hw]
      rw [countP_intersperse_space _ (by decide)]
      rw [List.countP_map]
      apply List.countP_congr
      intro c _
      by_cases h : c = ' ' <;> simp [maskChar, h, Function.comp]
  · by_cases hw : w = ""
    · subst hw; rfl
    · simp only [generateWordHint, if_neg hw]
      rw [countP_intersperse_space _ (by decide)]
      rw [List.countP_map]
      apply List.countP_congr
      intro c _
      by_cases h : c = ' ' <;> simp [maskChar, h, Function.comp]
  · by_cases hw : w = ""
    · subst hw; rfl
    · simp only [generateWordHint, if_neg hw]
      rw [List.all_eq_true]
      intro c hc
      rcases mem_intersperse_space c _ hc with h | h
      · rcases List.mem_map.1 h with ⟨d, _, rfl⟩
        rcases mask_mem_cases d with h' | h' <;> simp [h']
      · simp [h]

/-! ### C1: endRound is idempotent -/

lemma endRound_ended (reason : String) (r : Room)
    (hs : r.gameState.status = Status.round_end ∨ r.gameState.status = Status.game_end) :
    endRound reason r = ({ r with gameTimerPhase := none }, []) := by
  simp [endRound, hs]

/-- C1.  Invoking `endRound` while the room is already in `round_end` or
`game_end` changes nothing (once no interval is live, which is the case in
every ended state the code produces, the room is returned untouched) and
emits no `round_end_details`; consequently two successive invocations from
a live round broadcast the word reveal and score snapshot exactly once:
once by the first call and never by the second, which also leaves the
first call's result unchanged. -/
theorem C1_endRound_idempotent (reason1 reason2 : String) (r : Room) :
    ((r.gameState.status = Status.round_end ∨ r.gameState.status = Status.game_end) →
      (endRound reason1 r).2 = [] ∧
      (r.gameTimerPhase = none → endRound reason1 r = (r, []))) ∧
    (¬ (r.gameState.status = Status.round_end ∨ r.gameState.status = Status.game_end) →
      (endRound reason1 r).2.countP Event.isReveal = 1 ∧
      endRound reason2 (endRound reason1 r).1 = ((endRound reason1 r).1, []) ∧
      ((endRound reason1 r).2 ++ (endRound reason2 (endRound reason1 r).1).2).countP
        Event.isReveal = 1) := by
  constructor
  · intro hs
    rw [endRound_ended reason1 r hs]
    refine ⟨rfl, fun ht => ?_⟩
    cases r
    simp_all
  · intro hs
    have h1 : endRound reason1 r =
        ({ r with
            gameTimerPhase := none,
            gameState := { r.gameState with
              status := Status.round_end,
              timeLeft := TIME_BETWEEN_ROUNDS },
            players := r.players.map (fun p => { p with hasGuessedCorrectly := false }),
            roundEndPending := true },
         [Event.round_end_details r.gameState.word
            (r.players.map (fun p => (p.id, p.score))), Event.game_state]) := by
      simp [endRound, hs]
    have h2 : endRound reason2 (endRound reason1 r).1 = ((endRound reason1 r).1, []) := by
      rw [endRound_ended reason2 (endRound reason1 r).1 (by rw [h1]; exact Or.inl rfl)]
      rw [h1]
    have e2 : (endRound reason2 (endRound reason1 r).1).2 = [] := by rw [h2]
    have e1 : (endRound reason1 r).2.countP Event.isReveal = 1 := by rw [h1]; rfl
    refine ⟨e1, h2, ?_⟩
    rw [List.countP_append, e1, e2]
    rfl

/-! ### C2: timer callbacks are phase-guarded -/

/-- C2.  A timer tick delivered for a phase that no longer matches the
room's current status leaves the game state, the player roster and every
other room field unchanged and performs no phase transition: its only
effect is the `clearInterval` of the stored interval handle (and it emits
nothing). -/
theorem C2_tick_phase_guard (phase : Status) (autoIdx : Nat) (fallback : String) (r : Room)
    (h : r.gameState.status ≠ phase) :
    handleTimerTick phase autoIdx fallback r = ({ r with gameTimerPhase := none }, []) ∧
    (handleTimerTick phase autoIdx fallback r).1.gameState = r.gameState ∧
    (handleTimerTick phase autoIdx fallback r).1.players = r.players := by
  refine ⟨by simp [handleTimerTick, h], ?_, ?_⟩ <;> simp [handleTimerTick, h]

/-! ### Concrete rooms used to instantiate theorems with hypotheses -/

/-- A two-player room mid-`drawing`: alice (host) draws "apple", bob
guesses. -/
def exRoomDrawing : Room :=
  let alice : Player :=
    { id := 0, username := "alice", score := 0, isHost := true,
      isConnected := true, hasGuessedCorrectly := false }
  let bob : Player :=
    { id := 1, username := "bob", score := 0, isHost := false,
      isConnected := true, hasGuessedCorrectly := false }
  let gs : GameState :=
    { status := Status.drawing, currentRound := 1, totalRounds := 3,
      timeLeft := 40, currentDrawer := some 0, word := "apple",
      wordHint := "_ _ _ _ _", winnerId := none, roundDuration := 60 }
  { players := [alice, bob],
    gameState := gs,
    wordChoices := ["apple", "car", "dog"],
    gameTimerPhase := some Status.drawing,
    roundEndPending := false,
    lastDrawerIndex := 0 }

/-- Witness for C1 at a concrete mid-`drawing` room. -/
theorem C1_witness :
    (¬ (exRoomDrawing.gameState.status = Status.round_end ∨
        exRoomDrawing.gameState.status = Status.game_end)) ∧
    ((endRound "time_up" exRoomDrawing).2.countP Event.isReveal = 1 ∧
      endRound "again" (endRound "time_up" exRoomDrawing).1 =
        ((endRound "time_up" exRoomDrawing).1, []) ∧
      ((endRound "time_up" exRoomDrawing).2 ++
        (endRound "again" (endRound "time_up" exRoomDrawing).1).2).countP Event.isReveal = 1) :=
  ⟨by decide, (C1_endRound_idempotent "time_up" "again" exRoomDrawing).2 (by decide)⟩

/-- Witness for C2 at a concrete room: a stale `selecting` tick arriving
while the room is in `drawing` only clears the timer. -/
theorem C2_witness :
    exRoomDrawing.gameState.status ≠ Status.selecting ∧
    (handleTimerTick Status.selecting 0 "fox" exRoomDrawing =
        ({ exRoomDrawing with gameTimerPhase := none }, []) ∧
      (handleTimerTick Status.selecting 0 "fox" exRoomDrawing).1.gameState =
        exRoomDrawing.gameState ∧
      (handleTimerTick Status.selecting 0 "fox" exRoomDrawing).1.players =
        exRoomDrawing.players) :=
  ⟨by decide, C2_tick_phase_guard Status.selecting 0 "fox" exRoomDrawing (by decide)⟩

/-! ### C8: winner computation at game end -/

/-- Eligibility filter of `endGame`: connected, or a positive score. -/
def eligWinners (r : Room) : List Player :=
  r.players.filter (fun p => p.isConnected || decide ((0 : Int) < p.score))

lemma sortDesc_head_firstmax :
    ∀ l : List Player, l ≠ [] →
      ∃ (k : Nat) (q : Player), l[k]? = some q ∧ (sortByScoreDesc l).head? = some q ∧
        (∀ p ∈ l, p.score ≤ q.score) ∧
        (∀ j : Nat, j < k → ∀ p : Player, l[j]? = some p → p.score < q.score) := by
  intro l
  induction l with
  | nil => intro h; exact absurd rfl h
  | cons p t ih =>
    intro _
    cases ht : t with
    | nil =>
      refine ⟨0, p, rfl, by simp [sortByScoreDesc, insertDesc], by simp, ?_⟩
      intro j hj
      omega
    | cons b t' =>
      subst ht
      obtain ⟨k, q, hget, hhead, hmax, hpref⟩ := ih (by simp)
      obtain ⟨rest, hrest⟩ : ∃ rest, sortByScoreDesc (b :: t') = q :: rest := by
        cases hs : sortByScoreDesc (b :: t') with
        | nil => rw [hs] at hhead; simp at hhead
        | cons x xs => rw [hs] at hhead; simp at hhead; exact ⟨xs, by rw [hhead]⟩
      have hrw : sortByScoreDesc (p :: b :: t') = insertDesc p (sortByScoreDesc (b :: t')) := rfl
      by_cases hcmp : q.score ≤ p.score
      · refine ⟨0, p, rfl, ?_, ?_, ?_⟩
        · rw [hrw, hrest]; simp [insertDesc, hcmp]
        · intro x hx
          rcases List.mem_cons.1 hx with h | h
          · exact h ▸ le_refl _
          · exact le_trans (hmax x h) hcmp
        · intro j hj; omega
      · refine ⟨k + 1, q, by rw [List.getElem?_cons_succ]; exact hget, ?_, ?_, ?_⟩
        · rw [hrw, hrest]; simp [insertDesc, hcmp]
        · intro x hx
          rcases List.mem_cons.1 hx with h | h
          · subst h; omega
          · exact hmax x h
        · intro j hj x hx
          cases j with
          | zero =>
            rw [List.getElem?_cons_zero] at hx
            cases hx
            omega
          | succ j' =>
            rw [List.getElem?_cons_succ] at hx
            exact hpref j' (by omega) x hx

/-- C8.  At game end the winner is the player with the highest score among
players that are connected or have a positive score, ties broken by the
first occurrence in join order; `winnerId` is `none` exactly when no player
is eligible. -/
theorem C8_endGame_winner (r : Room) :
    (eligWinners r = [] → (endGame r).1.gameState.winnerId = none) ∧
    (eligWinners r ≠ [] →
      ∃ (k : Nat) (q : Player), (eligWinners r)[k]? = some q ∧
        (endGame r).1.gameState.winnerId = some q.id ∧
        (∀ p ∈ eligWinners r, p.score ≤ q.score) ∧
        (∀ j : Nat, j < k → ∀ p : Player, (eligWinners r)[j]? = some p → p.score < q.score)) := by
  have hw : (endGame r).1.gameState.winnerId
      = (sortByScoreDesc (eligWinners r)).head?.map (fun p => p.id) := rfl
  constructor
  · intro h
    rw [hw, h]
    rfl
  · intro h
    obtain ⟨k, q, hget, hhead, hmax, hpref⟩ := sortDesc_head_firstmax (eligWinners r) h
    refine ⟨k, q, hget, ?_, hmax, hpref⟩
    rw [hw, hhead]
    rfl

/-- A three-player room at the end of the last round, with scores: alice
20, bob 80, carol disconnected with score 0. -/
def exRoomScored : Room :=
  let alice : Player :=
    { id := 0, username := "alice", score := 20, isHost := true,
      isConnected := true, hasGuessedCorrectly := false }
  let bob : Player :=
    { id := 1, username := "bob", score := 80, isHost := false,
      isConnected := true, hasGuessedCorrectly := false }
  let carol : Player :=
    { id := 2, username := "carol", score := 0, isHost := false,
      isConnected := false, hasGuessedCorrectly := false }
  let gs : GameState :=
    { status := Status.round_end, currentRound := 3, totalRounds := 3,
      timeLeft := 0, currentDrawer := some 1, word := "fox",
      wordHint := "_ _ _", winnerId := none, roundDuration := 60 }
  { players := [alice, bob, carol],
    gameState := gs,
    wordChoices := [],
    gameTimerPhase := none,
    roundEndPending := true,
    lastDrawerIndex := 1 }

/-- Witness for C8: a concrete `game_end` giving bob (score 80) the win
over alice (score 20, earlier in join order) and skipping carol
(disconnected, score 0). -/
theorem C8_witness :
    eligWinners exRoomScored ≠ [] ∧
    ∃ (k : Nat) (q : Player), (eligWinners exRoomScored)[k]? = some q ∧
      (endGame exRoomScored).1.gameState.winnerId = some q.id ∧
      (∀ p ∈ eligWinners exRoomScored, p.score ≤ q.score) ∧
      (∀ j : Nat, j < k → ∀ p : Player,
        (eligWinners exRoomScored)[j]? = some p → p.score < q.score) :=
  ⟨by decide, (C8_endGame_winner exRoomScored).2 (by decide)⟩

/-! ### updateFirst and find? bookkeeping -/

lemma find?_updateFirst_self (pred : Player → Bool) (f : Player → Player)
    (hf : ∀ x, pred (f x) = pred x) :
    ∀ l : List Player, (updateFirst pred f l).find? pred = (l.find? pred).map f
  | [] => rfl
  | x :: t => by
    by_cases hx : pred x = true
    · have hfx : pred (f x) = true := by rw [hf]; exact hx
      simp [updateFirst, hx, List.find?_cons_of_pos, hfx]
    · have hx' : pred x = false := by simpa using hx
      have ih := find?_updateFirst_self pred f hf t
      simp [updateFirst, hx', List.find?_cons_of_neg, ih]

lemma find?_updateFirst_other (pred pd : Player → Bool) (f : Player → Player)
    (hdisj : ∀ x, pred x = true → pd x = false)
    (hpd : ∀ x, pd (f x) = pd x) :
    ∀ l : List Player, (updateFirst pred f l).find? pd = l.find? pd
  | [] => rfl
  | x :: t => by
    by_cases hx : pred x = true
    · have h1 : pd x = false := hdisj x hx
      have h2 : pd (f x) = false := by rw [hpd]; exact h1
      simp [updateFirst, hx, List.find?_cons_of_neg, h1, h2]
    · have hx' : pred x = false := by simpa using hx
      have ih := find?_updateFirst_other pred pd f hdisj hpd t
      by_cases hy : pd x = true
      · simp [updateFirst, hx', List.find?_cons_of_pos, hy]
      · have hy' : pd x = false := by simpa using hy
        simp [updateFirst, hx', List.find?_cons_of_neg, hy', ih]

lemma find?_map_pred (pd : Player → Bool) (f : Player → Player)
    (hpd : ∀ x, pd (f x) = pd x) :
    ∀ l : List Player, (l.map f).find? pd = (l.find? pd).map f
  | [] => rfl
  | x :: t => by
    by_cases hx : pd x = true
    · have hfx : pd (f x) = true := by rw [hpd]; exact hx
      simp [List.find?_cons_of_pos, hx, hfx]
    · have hx' : pd x = false := by simpa using hx
      have hfx : pd (f x) = false := by rw [hpd]; exact hx'
      have ih := find?_map_pred pd f hpd t
      simp [List.find?_cons_of_neg, hx', hfx, ih]

/-! ### C6: selection timeout refines explicit selection -/

lemma tick_expire_selecting (i : Nat) (fb w : String) (r : Room)
    (hst : r.gameState.status = Status.selecting)
    (ht : r.gameState.timeLeft ≤ 1)
    (hw : r.wordChoices[i]? = some w) (hw0 : w ≠ "") :
    (handleTimerTick Status.selecting i fb r).1 = selectWordApply w r := by
  obtain ⟨ps, gs, wc, gt, rp, ld⟩ := r
  obtain ⟨st, cr, tr, tl, cd, wd, wh, wi, rd⟩ := gs
  simp only at hst ht hw
  subst hst
  have ht' : tl - 1 ≤ 0 := by omega
  simp [handleTimerTick, selectWordApply, ht', hw, hw0]

lemma tick_expire_selecting_empty (i : Nat) (fb : String) (r : Room)
    (hst : r.gameState.status = Status.selecting)
    (ht : r.gameState.timeLeft ≤ 1)
    (hw : r.wordChoices = []) :
    (handleTimerTick Status.selecting i fb r).1 = selectWordApply fb r := by
  obtain ⟨ps, gs, wc, gt, rp, ld⟩ := r
  obtain ⟨st, cr, tr, tl, cd, wd, wh, wi, rd⟩ := gs
  simp only at hst ht hw
  subst hst
  subst hw
  have ht' : tl - 1 ≤ 0 := by omega
  simp [handleTimerTick, selectWordApply, ht']

lemma selectWord_accepted (d : Nat) (w : String) (r : Room)
    (hst : r.gameState.status = Status.selecting)
    (hd : r.gameState.currentDrawer = some d)
    (hmem : w ∈ r.wordChoices) :
    selectWord d w r = (selectWordApply w r,
      [Event.game_state, Event.system_message "word_selected"]) := by
  simp [selectWord, hst, hd, hmem]

/-- C6.  For a room in `selecting` whose clock is about to expire, the
selection-timeout branch of `handleTimerTick` produces exactly the room
state that the explicit `select_word` handler produces for the same word:
for every possible random index into the offered `wordChoices` the
resulting states agree, and with an empty offer the timeout applies the
shared transition to the dictionary fallback word. -/
theorem C6_timeout_refines_selection (i : Nat) (fb w : String) (d : Nat) (r : Room)
    (hst : r.gameState.status = Status.selecting)
    (hd : r.gameState.currentDrawer = some d)
    (ht : r.gameState.timeLeft ≤ 1) :
    (r.wordChoices[i]? = some w → w ≠ "" →
      (handleTimerTick Status.selecting i fb r).1 = (selectWord d w r).1) ∧
    (r.wordChoices = [] → fb ∈ words →
      (handleTimerTick Status.selecting i fb r).1 = selectWordApply fb r) := by
  constructor
  · intro hw hw0
    rw [tick_expire_selecting i fb w r hst ht hw hw0]
    rw [selectWord_accepted d w r hst hd (List.getElem?_mem hw)]
  · intro hw _
    exact tick_expire_selecting_empty i fb r hst ht hw

/-- A two-player room in `selecting` with one second on the clock. -/
def exRoomSelecting : Room :=
  let alice : Player :=
    { id := 0, username := "alice", score := 0, isHost := true,
      isConnected := true, hasGuessedCorrectly := false }
  let bob : Player :=
    { id := 1, username := "bob", score := 0, isHost := false,
      isConnected := true, hasGuessedCorrectly := false }
  let gs : GameState :=
    { status := Status.selecting, currentRound := 1, totalRounds := 3,
      timeLeft := 1, currentDrawer := some 0, word := "",
      wordHint := "", winnerId := none, roundDuration := 60 }
  { players := [alice, bob],
    gameState := gs,
    wordChoices := ["apple", "car", "dog"],
    gameTimerPhase := some Status.selecting,
    roundEndPending := false,
    lastDrawerIndex := 0 }

/-- Witness for C6: a concrete `selecting` room with one second left; the
timeout picking index 1 of the offer coincides with the drawer explicitly
selecting "car", and the empty-offer fallback case at a second concrete
room. -/
theorem C6_witness :
    (exRoomSelecting.gameState.status = Status.selecting ∧
      exRoomSelecting.gameState.currentDrawer = some 0 ∧
      exRoomSelecting.gameState.timeLeft ≤ 1 ∧
      exRoomSelecting.wordChoices[1]? = some "car") ∧
    (handleTimerTick Status.selecting 1 "fox" exRoomSelecting).1 =
      (selectWord 0 "car" exRoomSelecting).1 :=
  ⟨⟨by decide, by decide, by decide, by decide⟩,
   (C6_timeout_refines_selection 1 "fox" "car" 0 exRoomSelecting
      (by decide) (by decide) (by decide)).1 (by decide) (by decide)⟩

/-! ### C4: guess evaluation and scoring -/

lemma id_pred_disjoint (a b : Nat) (hab : b ≠ a) :
    ∀ x : Player, (x.id == a) = true → (x.id == b) = false := by
  intro x hx
  have hxe : x.id = a := by simpa using hx
  rw [hxe]
  simp only [beq_eq_false_iff_ne, ne_eq]
  exact fun h => hab h.symm

lemma find?_guessScore_self (sid : Nat) (gain : Int) (l : List Player) :
    (applyGuessScore sid gain l).find? (fun x => x.id == sid)
      = (l.find? (fun x => x.id == sid)).map
          (fun x => { x with hasGuessedCorrectly := true, score := x.score + gain }) := by
  rw [applyGuessScore]
  exact find?_updateFirst_self (fun x => x.id == sid)
    (fun x => { x with hasGuessedCorrectly := true, score := x.score + gain })
    (fun x => rfl) l

lemma find?_guessScore_other (sid d : Nat) (gain : Int) (hne : d ≠ sid) (l : List Player) :
    (applyGuessScore sid gain l).find? (fun x => x.id == d)
      = l.find? (fun x => x.id == d) := by
  rw [applyGuessScore]
  exact find?_updateFirst_other (fun x => x.id == sid) (fun x => x.id == d)
    (fun x => { x with hasGuessedCorrectly := true, score := x.score + gain })
    (id_pred_disjoint sid d hne) (fun x => rfl) l

lemma drawerBonus_eq (d : Nat) (l : List Player) (q : Player)
    (hq : l.find? (fun x => x.id == d) = some q) :
    applyDrawerBonus (some d) l
      = updateFirst (fun x => x.id == d) (fun x => { x with score := x.score + 20 }) l := by
  simp [applyDrawerBonus, hq]

lemma find?_drawerBonus_self (d : Nat) (l : List Player) (q : Player)
    (hq : l.find? (fun x => x.id == d) = some q) :
    (applyDrawerBonus (some d) l).find? (fun x => x.id == d)
      = some { q with score := q.score + 20 } := by
  rw [drawerBonus_eq d l q hq]
  rw [find?_updateFirst_self (fun x => x.id == d)
    (fun x => { x with score := x.score + 20 }) (fun x => rfl) l]
  rw [hq]
  rfl

lemma find?_drawerBonus_other (sid d : Nat) (hne : d ≠ sid) (l : List Player) (q : Player)
    (hq : l.find? (fun x => x.id == d) = some q) :
    (applyDrawerBonus (some d) l).find? (fun x => x.id == sid)
      = l.find? (fun x => x.id == sid) := by
  rw [drawerBonus_eq d l q hq]
  exact find?_updateFirst_other (fun x => x.id == d) (fun x => x.id == sid)
    (fun x => { x with score := x.score + 20 })
    (id_pred_disjoint d sid (fun h => hne h.symm)) (fun x => rfl) l

/-- C4.  During `drawing`, when a connected non-drawer who has not yet
guessed submits a guess whose trimmed lower-cased text equals the secret
word (lower-cased, trimmed), the guesser entry is marked as having guessed
(the mark survives unless this guess completed the round, in which case
`endRound` has already reset every flag and the room sits in `round_end`)
and its score grows by exactly `50 + floor(timeLeft * 1.5)`, while the
drawer entry's score grows by exactly 20; a non-matching guess leaves the
room, and hence every score, unchanged. -/
theorem C4_guess_scoring (sid d : Nat) (g : String) (r : Room) (p q : Player)
    (hg : ¬ jsTrim g = "")
    (hp : r.players.find? (fun x => x.id == sid) = some p)
    (hconn : p.isConnected = true)
    (hflag : p.hasGuessedCorrectly = false)
    (hst : r.gameState.status = Status.drawing)
    (hd : r.gameState.currentDrawer = some d)
    (hne : d ≠ sid)
    (hq : r.players.find? (fun x => x.id == d) = some q) :
    (jsToLower (jsTrim g) = jsTrim (jsToLower r.gameState.word) →
      ∃ pg qd : Player,
        (guessOp sid g r).1.players.find? (fun x => x.id == sid) = some pg ∧
        pg.score = p.score + (50 + (3 * max 0 r.gameState.timeLeft) / 2) ∧
        (guessOp sid g r).1.players.find? (fun x => x.id == d) = some qd ∧
        qd.score = q.score + 20 ∧
        (pg.hasGuessedCorrectly = true ∨
          (guessOp sid g r).1.gameState.status = Status.round_end)) ∧
    (¬ jsToLower (jsTrim g) = jsTrim (jsToLower r.gameState.word) → (guessOp sid g r).1 = r) := by
  have hnd : ¬ (r.gameState.currentDrawer = some sid) := by
    rw [hd]
    simp only [Option.some.injEq]
    exact hne
  constructor
  · intro hm
    set gain : Int := 50 + (3 * max 0 r.gameState.timeLeft) / 2 with hgain
    have e1 : (applyGuessScore sid gain r.players).find? (fun x => x.id == sid)
        = some { p with hasGuessedCorrectly := true, score := p.score + gain } := by
      rw [find?_guessScore_self sid gain r.players, hp]
      rfl
    have e2 : (applyGuessScore sid gain r.players).find? (fun x => x.id == d) = some q := by
      rw [find?_guessScore_other sid d gain hne r.players, hq]
    have e4 : (applyDrawerBonus (some d) (applyGuessScore sid gain r.players)).find?
        (fun x => x.id == d) = some { q with score := q.score + 20 } :=
      find?_drawerBonus_self d (applyGuessScore sid gain r.players) q e2
    have e5 : (applyDrawerBonus (some d) (applyGuessScore sid gain r.players)).find?
        (fun x => x.id == sid)
        = some { p with hasGuessedCorrectly := true, score := p.score + gain } := by
      rw [find?_drawerBonus_other sid d hne (applyGuessScore sid gain r.players) q e2]
      exact e1
    rw [guessOp]
    rw [if_neg hg, hp]
    simp only []
    rw [if_neg (by simp [hconn]), if_neg (by simp [hst]), if_neg hnd,
      if_neg (by simp [hflag]), if_pos hm]
    simp only [hd, ← hgain]
    by_cases hall : allGuessedAfter { r with players := applyDrawerBonus (some d) (applyGuessScore sid gain r.players) } = true
    · rw [if_pos hall]
      have hendp : (endRound "all_guessed" { r with players := applyDrawerBonus (some d) (applyGuessScore sid gain r.players) }).1.players
          = (applyDrawerBonus (some d) (applyGuessScore sid gain r.players)).map
              (fun x => { x with hasGuessedCorrectly := false }) := by
        simp [endRound, hst]
      have hends : (endRound "all_guessed" { r with players := applyDrawerBonus (some d) (applyGuessScore sid gain r.players) }).1.gameState.status
          = Status.round_end := by
        simp [endRound, hst]
      refine ⟨{ p with hasGuessedCorrectly := false, score := p.score + gain },
              { q with score := q.score + 20, hasGuessedCorrectly := false },
              ?_, rfl, ?_, rfl, Or.inr hends⟩
      · rw [hendp]
        rw [find?_map_pred (fun x => x.id == sid)
          (fun x => { x with hasGuessedCorrectly := false }) (fun x => rfl)
          (applyDrawerBonus (some d) (applyGuessScore sid gain r.players))]
        rw [e5]
        rfl
      · rw [hendp]
        rw [find?_map_pred (fun x => x.id == d)
          (fun x => { x with hasGuessedCorrectly := false }) (fun x => rfl)
          (applyDrawerBonus (some d) (applyGuessScore sid gain r.players))]
        rw [e4]
        rfl
    · rw [if_neg hall]
      exact ⟨{ p with hasGuessedCorrectly := true, score := p.score + gain },
             { q with score := q.score + 20 }, e5, rfl, e4, rfl, Or.inl rfl⟩
  · intro hm
    rw [guessOp]
    rw [if_neg hg, hp]
    simp only []
    rw [if_neg (by simp [hconn]), if_neg (by simp [hst]), if_neg hnd,
      if_neg (by simp [hflag]), if_neg hm]

/-- Witness for C4: in `exRoomDrawing`, bob guesses " Apple " against the
word "apple" with 40 seconds left, earning 50 + 60 = 110 points while
drawer alice earns 20. -/
theorem C4_witness :
    jsToLower (jsTrim " Apple ") = jsTrim (jsToLower exRoomDrawing.gameState.word) ∧
    ∃ pg qd : Player,
      (guessOp 1 " Apple " exRoomDrawing).1.players.find? (fun x => x.id == 1) = some pg ∧
      pg.score = (0 : Int) + (50 + (3 * max 0 exRoomDrawing.gameState.timeLeft) / 2) ∧
      (guessOp 1 " Apple " exRoomDrawing).1.players.find? (fun x => x.id == 0) = some qd ∧
      qd.score = (0 : Int) + 20 ∧
      (pg.hasGuessedCorrectly = true ∨
        (guessOp 1 " Apple " exRoomDrawing).1.gameState.status = Status.round_end) :=
  ⟨by decide,
   (C4_guess_scoring 1 0 " Apple " exRoomDrawing
      ⟨1, "bob", 0, false, true, false⟩ ⟨0, "alice", 0, true, true, false⟩
      (by decide) (by decide) (by decide) (by decide) (by decide) (by decide)
      (by decide) (by decide)).1 (by decide)⟩

/-! ### C10: start_game restarts from any phase -/

lemma firstDrawer_spec (l : List Player) (h : l ≠ []) :
    ∃ fd : Player,
      ((l.find? (fun p => p.isHost && p.isConnected)).orElse (fun _ => l.head?)) = some fd ∧
      fd ∈ l := by
  cases hf : l.find? (fun p => p.isHost && p.isConnected) with
  | some x =>
    exact ⟨x, by simp [Option.orElse, hf], List.mem_of_find?_eq_some hf⟩
  | none =>
    cases l with
    | nil => exact absurd rfl h
    | cons a t => exact ⟨a, by simp [Option.orElse, hf], List.mem_cons_self a t⟩

lemma filter_map_resetScore (l : List Player) :
    (l.map resetScore).filter (fun p => p.isConnected)
      = (l.filter (fun p => p.isConnected)).map resetScore := by
  rw [List.filter_map]
  rfl

/-- C10.  `start_game` from the current host with at least two connected
players is accepted with no phase guard whatsoever: from any status it
cancels the phase interval and the pending round-end timeout (replacing the
former by a fresh `selecting` interval), zeroes every score and guess flag,
and enters `selecting` with `currentRound = 1`, a cleared word and winner,
and a connected player as drawer (the requesting host itself whenever the
requester is connected and is the only connected host) — and it emits no
`round_end_details`, so a restart mid-round never reveals the word. -/
theorem C10_start_any_phase (sid : Nat) (reqRounds : Option Nat) (choices : List String)
    (r : Room) (p : Player)
    (hp : r.players.find? (fun x => x.id == sid) = some p)
    (hhost : p.isHost = true)
    (hcount : 2 ≤ (r.players.filter (fun x => x.isConnected)).length) :
    (startGame sid reqRounds choices r).1.gameState.status = Status.selecting ∧
    (startGame sid reqRounds choices r).1.gameState.currentRound = 1 ∧
    (startGame sid reqRounds choices r).1.gameState.word = "" ∧
    (startGame sid reqRounds choices r).1.gameState.winnerId = none ∧
    (∀ q ∈ (startGame sid reqRounds choices r).1.players,
      q.score = 0 ∧ q.hasGuessedCorrectly = false) ∧
    (startGame sid reqRounds choices r).1.roundEndPending = false ∧
    (startGame sid reqRounds choices r).1.gameTimerPhase = some Status.selecting ∧
    (∀ e ∈ (startGame sid reqRounds choices r).2, e.isReveal = false) ∧
    (∃ fd : Player, fd ∈ (startGame sid reqRounds choices r).1.players ∧
      fd.isConnected = true ∧
      (startGame sid reqRounds choices r).1.gameState.currentDrawer = some fd.id) ∧
    (p.isConnected = true →
      (∀ q ∈ r.players, q.isHost = true → q.isConnected = true → q.id = sid) →
      (startGame sid reqRounds choices r).1.gameState.currentDrawer = some sid) := by
  have hne : (r.players.map resetScore).filter (fun x => x.isConnected) ≠ [] := by
    rw [filter_map_resetScore]
    intro hemp
    rw [← List.length_eq_zero] at hemp
    rw [List.length_map] at hemp
    omega
  obtain ⟨fd, hfd, hfdmem⟩ :=
    firstDrawer_spec ((r.players.map resetScore).filter (fun x => x.isConnected)) hne
  have hfdconn : fd.isConnected = true := (List.mem_filter.1 hfdmem).2
  have hfdps1 : fd ∈ r.players.map resetScore := (List.mem_filter.1 hfdmem).1
  have hkey : startGame sid reqRounds choices r
      = ({ r with
            players := r.players.map resetScore,
            lastDrawerIndex :=
              match (r.players.map resetScore).findIdx? (fun x => x.id == fd.id) with
              | some i => (i : Int)
              | none => -1,
            wordChoices := choices,
            gameTimerPhase := some Status.selecting,
            roundEndPending := false,
            gameState := { r.gameState with
              status := Status.selecting,
              currentRound := 1,
              totalRounds :=
                match reqRounds with
                | some n => if 1 ≤ n then n else DEFAULT_TOTAL_ROUNDS
                | none => DEFAULT_TOTAL_ROUNDS,
              timeLeft := TIME_FOR_WORD_SELECTION,
              currentDrawer := some fd.id,
              word := "",
              wordHint := "",
              winnerId := none } },
         [Event.system_message "game_starting", Event.game_state, Event.room_update,
          Event.word_choices choices]) := by
    rw [startGame.eq_def, hp]
    simp only []
    rw [if_neg (by simp [hhost]), if_neg (by omega)]
    simp only [hfd]
  refine ⟨by rw [hkey], by rw [hkey], by rw [hkey], by rw [hkey], ?_, by rw [hkey],
          by rw [hkey], ?_, ?_, ?_⟩
  · rw [hkey]
    intro q hq
    simp only [List.mem_map] at hq
    obtain ⟨y, _, rfl⟩ := hq
    exact ⟨rfl, rfl⟩
  · rw [hkey]
    intro e he
    simp only [List.mem_cons] at he
    rcases he with rfl | rfl | rfl | rfl | h
    · rfl
    · rfl
    · rfl
    · rfl
    · simp at h
  · exact ⟨fd, by rw [hkey]; exact hfdps1, hfdconn, by rw [hkey]⟩
  · intro hpc huniq
    rw [hkey]
    simp only [Option.some.injEq]
    cases hf : ((r.players.map resetScore).filter (fun x => x.isConnected)).find?
        (fun x => x.isHost && x.isConnected) with
    | some x =>
      have hx : ((r.players.map resetScore).filter (fun x => x.isConnected)).find?
          (fun x => x.isHost && x.isConnected) = some fd := by
        rw [hf] at hfd ⊢
        simpa [Option.orElse] using hfd
      have hxmem := List.mem_of_find?_eq_some hx
      have hxpred := List.find?_some hx
      simp only [Bool.and_eq_true] at hxpred
      obtain ⟨y, hy, rfl⟩ := List.mem_map.1 (List.mem_filter.1 hxmem).1
      have : y.id = sid :=
        huniq y hy (by simpa [resetScore] using hxpred.1)
          (by simpa [resetScore] using hxpred.2)
      simpa [resetScore] using this
    | none =>
      exfalso
      have hmem : resetScore p ∈
          (r.players.map resetScore).filter (fun x => x.isConnected) := by
        rw [List.mem_filter]
        refine ⟨List.mem_map_of_mem resetScore (List.mem_of_find?_eq_some hp), ?_⟩
        simpa [resetScore] using hpc
      have := List.find?_eq_none.1 hf (resetScore p) hmem
      simp [resetScore, hhost, hpc] at this

/-- Witness for C10: host alice restarts `exRoomScored` mid-`round_end`;
the game silently returns to `selecting` round 1 with zeroed scores and no
reveal. -/
theorem C10_witness :
    (exRoomScored.players.find? (fun x => x.id == 0)
        = some ⟨0, "alice", 20, true, true, false⟩ ∧
      2 ≤ (exRoomScored.players.filter (fun x => x.isConnected)).length) ∧
    ((startGame 0 (some 5) ["car", "dog", "sun"] exRoomScored).1.gameState.status
        = Status.selecting ∧
      (startGame 0 (some 5) ["car", "dog", "sun"] exRoomScored).1.gameState.currentRound = 1 ∧
      (startGame 0 (some 5) ["car", "dog", "sun"] exRoomScored).1.gameState.word = "" ∧
      (startGame 0 (some 5) ["car", "dog", "sun"] exRoomScored).1.gameState.winnerId = none ∧
      (∀ q ∈ (startGame 0 (some 5) ["car", "dog", "sun"] exRoomScored).1.players,
        q.score = 0 ∧ q.hasGuessedCorrectly = false) ∧
      (startGame 0 (some 5) ["car", "dog", "sun"] exRoomScored).1.roundEndPending = false ∧
      (startGame 0 (some 5) ["car", "dog", "sun"] exRoomScored).1.gameTimerPhase
        = some Status.selecting ∧
      (∀ e ∈ (startGame 0 (some 5) ["car", "dog", "sun"] exRoomScored).2,
        e.isReveal = false) ∧
      (∃ fd : Player,
        fd ∈ (startGame 0 (some 5) ["car", "dog", "sun"] exRoomScored).1.players ∧
        fd.isConnected = true ∧
        (startGame 0 (some 5) ["car", "dog", "sun"] exRoomScored).1.gameState.currentDrawer
          = some fd.id) ∧
      ((⟨0, "alice", 20, true, true, false⟩ : Player).isConnected = true →
        (∀ q ∈ exRoomScored.players, q.isHost = true → q.isConnected = true → q.id = 0) →
        (startGame 0 (some 5) ["car", "dog", "sun"] exRoomScored).1.gameState.currentDrawer
          = some 0)) :=
  ⟨⟨by decide, by decide⟩,
   C10_start_any_phase 0 (some 5) ["car", "dog", "sun"] exRoomScored
     ⟨0, "alice", 20, true, true, false⟩ (by decide) (by decide) (by decide)⟩

/-! ### C5: drawer rotation -/

/-- Positions of `room.players` holding a connected player, in roster
order. -/
def connIdxs (ps : List Player) : List Nat :=
  (List.range ps.length).filter (fun i => connAt ps i)

/-- One rotation step: the scan `startNextRound` performs when the last
drawer sat at position `i`. -/
def nextFrom (ps : List Player) (i : Nat) : Option Nat :=
  findNextDrawer ps (i + 1) ps.length

/-- The positions visited by `n` successive rotation steps starting after
position `i`. -/
def orbit (ps : List Player) (i : Nat) : Nat → List Nat
  | 0 => []
  | n + 1 =>
    match nextFrom ps i with
    | some j => j :: orbit ps j n
    | none => []

lemma findNextDrawer_spec (ps : List Player) :
    ∀ (fuel start c : Nat),
      findNextDrawer ps start fuel = some c ↔
      ∃ a : Nat, a < fuel ∧ connAt ps ((start + a) % ps.length) = true ∧
        (∀ b : Nat, b < a → connAt ps ((start + b) % ps.length) = false) ∧
        c = (start + a) % ps.length := by
  intro fuel
  induction fuel with
  | zero =>
    intro start c
    simp [findNextDrawer]
  | succ n ih =>
    intro start c
    rw [findNextDrawer]
    by_cases hc : connAt ps (start % ps.length) = true
    · rw [if_pos hc]
      constructor
      · intro h
        obtain rfl : start % ps.length = c := by simpa using h
        exact ⟨0, by omega, by simpa using hc, by omega, by simp⟩
      · rintro ⟨a, ha, hconn, hmin, rfl⟩
        cases a with
        | zero => simp
        | succ a' =>
          have := hmin 0 (by omega)
          simp only [Nat.add_zero] at this
          rw [this] at hc
          cases hc
    · rw [if_neg hc]
      have hc' : connAt ps (start % ps.length) = false := by
        cases h : connAt ps (start % ps.length)
        · rfl
        · exact absurd h hc
      rw [ih (start + 1) c]
      constructor
      · rintro ⟨a, ha, hconn, hmin, rfl⟩
        refine ⟨a + 1, by omega, ?_, ?_, ?_⟩
        · rw [show start + (a + 1) = start + 1 + a by omega]
          exact hconn
        · intro b hb
          cases b with
          | zero => simpa using hc'
          | succ b' =>
            rw [show start + (b' + 1) = start + 1 + b' by omega]
            exact hmin b' (by omega)
        · rw [show start + (a + 1) = start + 1 + a by omega]
      · rintro ⟨a, ha, hconn, hmin, rfl⟩
        cases a with
        | zero =>
          simp only [Nat.add_zero] at hconn
          rw [hconn] at hc'
          cases hc'
        | succ a' =>
          refine ⟨a', by omega, ?_, ?_, ?_⟩
          · rw [show start + 1 + a' = start + (a' + 1) by omega]
            exact hconn
          · intro b hb
            rw [show start + 1 + b = start + (b + 1) by omega]
            exact hmin (b + 1) (by omega)
          · rw [show start + 1 + a' = start + (a' + 1) by omega]

lemma connAt_lt_length (ps : List Player) (j : Nat) (hj : connAt ps j = true) :
    j < ps.length := by
  rw [connAt] at hj
  cases h : ps[j]? with
  | none => rw [h] at hj; cases hj
  | some p => exact (List.getElem?_eq_some.1 h).1

lemma findNextDrawer_total (ps : List Player) (start j : Nat)
    (hj : connAt ps j = true) :
    ∃ c, findNextDrawer ps start ps.length = some c := by
  have hjL : j < ps.length := connAt_lt_length ps j hj
  have hL : 0 < ps.length := by omega
  have hsm : start % ps.length < ps.length := Nat.mod_lt start hL
  have hdm : ps.length * (start / ps.length) + start % ps.length = start :=
    Nat.div_add_mod start ps.length
  have hwitP : connAt ps ((start + (j + ps.length - start % ps.length) % ps.length)
      % ps.length) = true := by
    have h2 : (start + (j + ps.length - start % ps.length) % ps.length) % ps.length
        = (start + (j + ps.length - start % ps.length)) % ps.length :=
      Nat.add_mod_mod start (j + ps.length - start % ps.length) ps.length
    have h3 : start + (j + ps.length - start % ps.length)
        = ps.length * (start / ps.length + 1) + j := by
      have hmul : ps.length * (start / ps.length + 1)
          = ps.length * (start / ps.length) + ps.length := by ring
      omega
    rw [h2, h3, Nat.mul_add_mod, Nat.mod_eq_of_lt hjL]
    exact hj
  have hhit : ∃ b : Nat, connAt ps ((start + b) % ps.length) = true :=
    ⟨(j + ps.length - start % ps.length) % ps.length, hwitP⟩
  refine ⟨(start + Nat.find hhit) % ps.length, ?_⟩
  rw [findNextDrawer_spec]
  refine ⟨Nat.find hhit, ?_, Nat.find_spec hhit, ?_, rfl⟩
  · have hle : Nat.find hhit ≤ (j + ps.length - start % ps.length) % ps.length :=
      Nat.find_min' hhit hwitP
    have hwl : (j + ps.length - start % ps.length) % ps.length < ps.length :=
      Nat.mod_lt _ hL
    omega
  · intro b hb
    have hmin := Nat.find_min hhit hb
    cases h : connAt ps ((start + b) % ps.length)
    · rfl
    · exact absurd h hmin

lemma mem_connIdxs (ps : List Player) (i : Nat) :
    i ∈ connIdxs ps ↔ i < ps.length ∧ connAt ps i = true := by
  simp [connIdxs, List.mem_filter, List.mem_range]

lemma connIdxs_pairwise (ps : List Player) : (connIdxs ps).Pairwise (· < ·) :=
  (List.pairwise_lt_range ps.length).filter _

lemma connIdxs_get_mono (ps : List Player) (k1 k2 : Nat)
    (h1 : k1 < (connIdxs ps).length) (h2 : k2 < (connIdxs ps).length) (hlt : k1 < k2) :
    (connIdxs ps).get ⟨k1, h1⟩ < (connIdxs ps).get ⟨k2, h2⟩ :=
  List.pairwise_iff_get.1 (connIdxs_pairwise ps) ⟨k1, h1⟩ ⟨k2, h2⟩ hlt

lemma connIdxs_get_le_get (ps : List Player) (k1 k2 : Nat)
    (h1 : k1 < (connIdxs ps).length) (h2 : k2 < (connIdxs ps).length) (hle : k1 ≤ k2) :
    (connIdxs ps).get ⟨k1, h1⟩ ≤ (connIdxs ps).get ⟨k2, h2⟩ := by
  rcases Nat.lt_or_ge k1 k2 with h | h
  · exact Nat.le_of_lt (connIdxs_get_mono ps k1 k2 h1 h2 h)
  · have heq : k1 = k2 := by omega
    subst heq
    exact Nat.le_refl _

lemma connIdxs_get_mem (ps : List Player) (k : Nat) (hk : k < (connIdxs ps).length) :
    (connIdxs ps).get ⟨k, hk⟩ < ps.length ∧
      connAt ps ((connIdxs ps).get ⟨k, hk⟩) = true :=
  (mem_connIdxs ps _).1 (List.get_mem _ _ _)

/-- The scan started just past one connected position lands on the
cyclically next connected position: on the sorted list of connected
positions, `nextFrom` is the successor modulo its length. -/
lemma nextFrom_get (ps : List Player) (k : Nat) (hk : k < (connIdxs ps).length) :
    nextFrom ps ((connIdxs ps).get ⟨k, hk⟩)
      = some ((connIdxs ps).getD ((k + 1) % (connIdxs ps).length) 0) := by
  have hm0 : 0 < (connIdxs ps).length := by omega
  obtain ⟨hxL, hxconn⟩ := connIdxs_get_mem ps k hk
  rw [nextFrom]
  by_cases hklt : k + 1 < (connIdxs ps).length
  · -- interior case: the successor is the next sorted element
    have hmodid : (k + 1) % (connIdxs ps).length = k + 1 :=
      Nat.mod_eq_of_lt hklt
    rw [hmodid, List.getD_eq_get _ 0 hklt]
    obtain ⟨hyL, hyconn⟩ := connIdxs_get_mem ps (k + 1) hklt
    have hxy : (connIdxs ps).get ⟨k, hk⟩ < (connIdxs ps).get ⟨k + 1, hklt⟩ :=
      connIdxs_get_mono ps k (k + 1) hk hklt (by omega)
    rw [findNextDrawer_spec]
    refine ⟨(connIdxs ps).get ⟨k + 1, hklt⟩ - (connIdxs ps).get ⟨k, hk⟩ - 1,
      by omega, ?_, ?_, ?_⟩
    · rw [show (connIdxs ps).get ⟨k, hk⟩ + 1 +
          ((connIdxs ps).get ⟨k + 1, hklt⟩ - (connIdxs ps).get ⟨k, hk⟩ - 1)
          = (connIdxs ps).get ⟨k + 1, hklt⟩ by omega]
      rw [Nat.mod_eq_of_lt hyL]
      exact hyconn
    · intro b hb
      have hposlt : (connIdxs ps).get ⟨k, hk⟩ + 1 + b < (connIdxs ps).get ⟨k + 1, hklt⟩ := by
        omega
      rw [Nat.mod_eq_of_lt (by omega)]
      by_contra hcb
      have hcb' : connAt ps ((connIdxs ps).get ⟨k, hk⟩ + 1 + b) = true := by
        cases h : connAt ps ((connIdxs ps).get ⟨k, hk⟩ + 1 + b)
        · exact absurd h hcb
        · rfl
      have hmem : ((connIdxs ps).get ⟨k, hk⟩ + 1 + b) ∈ connIdxs ps :=
        (mem_connIdxs ps _).2 ⟨by omega, hcb'⟩
      obtain ⟨t, ht⟩ := List.mem_iff_get.1 hmem
      rcases Nat.lt_trichotomy t.1 (k + 1) with hc | hc | hc
      · have : (connIdxs ps).get t ≤ (connIdxs ps).get ⟨k, hk⟩ :=
          connIdxs_get_le_get ps t.1 k t.2 hk (by omega)
        omega
      · have : (connIdxs ps).get t = (connIdxs ps).get ⟨k + 1, hklt⟩ := by
          congr 1
          exact Fin.ext hc
        omega
      · have : (connIdxs ps).get ⟨k + 1, hklt⟩ ≤ (connIdxs ps).get t :=
          connIdxs_get_le_get ps (k + 1) t.1 hklt t.2 (by omega)
        omega
    · rw [show (connIdxs ps).get ⟨k, hk⟩ + 1 +
          ((connIdxs ps).get ⟨k + 1, hklt⟩ - (connIdxs ps).get ⟨k, hk⟩ - 1)
          = (connIdxs ps).get ⟨k + 1, hklt⟩ by omega]
      rw [Nat.mod_eq_of_lt hyL]
  · -- wrap-around case: k is the last index, the successor is the minimum
    have hkm : k + 1 = (connIdxs ps).length := by omega
    have hmod0 : (k + 1) % (connIdxs ps).length = 0 := by
      rw [hkm, Nat.mod_self]
    rw [hmod0, List.getD_eq_get _ 0 hm0]
    obtain ⟨h0L, h0conn⟩ := connIdxs_get_mem ps 0 hm0
    have h0x : (connIdxs ps).get ⟨0, hm0⟩ ≤ (connIdxs ps).get ⟨k, hk⟩ :=
      connIdxs_get_le_get ps 0 k hm0 hk (by omega)
    have hmax : ∀ t : Fin (connIdxs ps).length,
        (connIdxs ps).get t ≤ (connIdxs ps).get ⟨k, hk⟩ := by
      intro t
      exact connIdxs_get_le_get ps t.1 k t.2 hk (by omega)
    have hmin : ∀ t : Fin (connIdxs ps).length,
        (connIdxs ps).get ⟨0, hm0⟩ ≤ (connIdxs ps).get t := by
      intro t
      exact connIdxs_get_le_get ps 0 t.1 hm0 t.2 (by omega)
    rw [findNextDrawer_spec]
    refine ⟨ps.length - 1 - (connIdxs ps).get ⟨k, hk⟩ + (connIdxs ps).get ⟨0, hm0⟩,
      by omega, ?_, ?_, ?_⟩
    · rw [show (connIdxs ps).get ⟨k, hk⟩ + 1 +
          (ps.length - 1 - (connIdxs ps).get ⟨k, hk⟩ + (connIdxs ps).get ⟨0, hm0⟩)
          = ps.length + (connIdxs ps).get ⟨0, hm0⟩ by omega]
      rw [Nat.add_mod_left, Nat.mod_eq_of_lt h0L]
      exact h0conn
    · intro b hb
      by_contra hcb
      have hcb' : connAt ps (((connIdxs ps).get ⟨k, hk⟩ + 1 + b) % ps.length) = true := by
        cases h : connAt ps (((connIdxs ps).get ⟨k, hk⟩ + 1 + b) % ps.length)
        · exact absurd h hcb
        · rfl
      rcases Nat.lt_or_ge ((connIdxs ps).get ⟨k, hk⟩ + 1 + b) ps.length with hsm | hsm
      · rw [Nat.mod_eq_of_lt hsm] at hcb'
        have hmem : ((connIdxs ps).get ⟨k, hk⟩ + 1 + b) ∈ connIdxs ps :=
          (mem_connIdxs ps _).2 ⟨hsm, hcb'⟩
        obtain ⟨t, ht⟩ := List.mem_iff_get.1 hmem
        have := hmax t
        omega
      · have hsub : ((connIdxs ps).get ⟨k, hk⟩ + 1 + b) % ps.length
            = (connIdxs ps).get ⟨k, hk⟩ + 1 + b - ps.length := by
          rw [Nat.mod_eq_sub_mod hsm]
          exact Nat.mod_eq_of_lt (by omega)
        rw [hsub] at hcb'
        have hmem : ((connIdxs ps).get ⟨k, hk⟩ + 1 + b - ps.length) ∈ connIdxs ps :=
          (mem_connIdxs ps _).2 ⟨by omega, hcb'⟩
        obtain ⟨t, ht⟩ := List.mem_iff_get.1 hmem
        have := hmin t
        omega
    · rw [show (connIdxs ps).get ⟨k, hk⟩ + 1 +
          (ps.length - 1 - (connIdxs ps).get ⟨k, hk⟩ + (connIdxs ps).get ⟨0, hm0⟩)
          = ps.length + (connIdxs ps).get ⟨0, hm0⟩ by omega]
      rw [Nat.add_mod_left, Nat.mod_eq_of_lt h0L]

/-- Cyclic indexing into the sorted list of connected positions. -/
def cyc (s : List Nat) (k : Nat) : Nat := s.getD (k % s.length) 0

lemma nextFrom_cyc (ps : List Player) (h : connIdxs ps ≠ []) (k : Nat) :
    nextFrom ps (cyc (connIdxs ps) k) = some (cyc (connIdxs ps) (k + 1)) := by
  have hm0 : 0 < (connIdxs ps).length := List.length_pos.2 h
  have hklt : k % (connIdxs ps).length < (connIdxs ps).length := Nat.mod_lt _ hm0
  have h1 : cyc (connIdxs ps) k = (connIdxs ps).get ⟨k % (connIdxs ps).length, hklt⟩ :=
    List.getD_eq_get _ 0 hklt
  rw [h1, nextFrom_get ps (k % (connIdxs ps).length) hklt]
  rw [cyc]
  rw [Nat.mod_add_mod]

lemma orbit_cyc (ps : List Player) (h : connIdxs ps ≠ []) :
    ∀ (n k : Nat),
      orbit ps (cyc (connIdxs ps) k) n
        = (List.range n).map (fun t => cyc (connIdxs ps) (k + 1 + t))
  | 0, k => by simp [orbit]
  | n + 1, k => by
    rw [orbit, nextFrom_cyc ps h k]
    simp only []
    rw [orbit_cyc ps h n (k + 1)]
    rw [List.range_succ_eq_map]
    simp only [List.map_cons, List.map_map]
    refine List.cons_eq_cons.2 ⟨by rw [Nat.add_zero], ?_⟩
    apply List.map_eq_map_iff.mpr
    intro t _
    show cyc (connIdxs ps) (k + 1 + 1 + t) = cyc (connIdxs ps) (k + 1 + (t + 1))
    congr 1
    omega

lemma rot_range_perm (m c : Nat) (hm : 0 < m) :
    ((List.range m).map (fun t => (c + t) % m)).Perm (List.range m) := by
  have hnd : ((List.range m).map (fun t => (c + t) % m)).Nodup := by
    apply List.Nodup.map_on
    · intro x hx y hy hxy
      rw [List.mem_range] at hx hy
      have hme : Nat.ModEq m (c + x) (c + y) := hxy
      have := Nat.ModEq.add_left_cancel' c hme
      have hxy' : x % m = y % m := this
      rw [Nat.mod_eq_of_lt hx, Nat.mod_eq_of_lt hy] at hxy'
      exact hxy'
    · exact List.nodup_range m
  have hsub : ((List.range m).map (fun t => (c + t) % m)) ⊆ List.range m := by
    intro x hx
    rw [List.mem_map] at hx
    obtain ⟨t, _, rfl⟩ := hx
    exact List.mem_range.2 (Nat.mod_lt _ hm)
  refine List.Subperm.perm_of_length_le (List.subperm_of_subset hnd hsub) ?_
  rw [List.length_map, List.length_range]

lemma map_getD_range : ∀ s : List Nat,
    (List.range s.length).map (fun j => s.getD j 0) = s
  | [] => rfl
  | a :: t => by
    rw [List.length_cons, List.range_succ_eq_map]
    simp only [List.map_cons, List.map_map, List.getD_cons_zero]
    refine List.cons_eq_cons.2 ⟨rfl, ?_⟩
    rw [show ((fun j => (a :: t).getD j 0) ∘ Nat.succ) = (fun j => t.getD j 0) from ?_]
    · exact map_getD_range t
    · funext j
      rfl

/-- Iterating the rotation step once per connected player, starting from
any connected position, visits exactly the connected positions: the orbit
is a permutation of `connIdxs`. -/
lemma orbit_perm (ps : List Player) (i : Nat) (hi : i ∈ connIdxs ps) :
    (orbit ps i (connIdxs ps).length).Perm (connIdxs ps) := by
  have hne : connIdxs ps ≠ [] := by
    intro h
    rw [h] at hi
    cases hi
  have hm0 : 0 < (connIdxs ps).length := List.length_pos.2 hne
  obtain ⟨t, ht⟩ := List.mem_iff_get.1 hi
  have hcyc : i = cyc (connIdxs ps) t.1 := by
    rw [cyc, Nat.mod_eq_of_lt t.2, List.getD_eq_get _ 0 t.2, ht]
  rw [hcyc, orbit_cyc ps hne]
  have hcomp : (List.range (connIdxs ps).length).map (fun u => cyc (connIdxs ps) (t.1 + 1 + u))
      = ((List.range (connIdxs ps).length).map (fun u => (t.1 + 1 + u) % (connIdxs ps).length)).map
          (fun j => (connIdxs ps).getD j 0) := by
    rw [List.map_map]
    rfl
  rw [hcomp]
  have hperm := rot_range_perm (connIdxs ps).length (t.1 + 1) hm0
  have := hperm.map (fun j => (connIdxs ps).getD j 0)
  rw [map_getD_range (connIdxs ps)] at this
  exact this

lemma startNextRound_players_eq (choices : List String) (r : Room) :
    (startNextRound choices r).1.players = r.players := by
  rw [startNextRound]
  simp only []
  split
  · rfl
  · split
    · rfl
    · split
      · rfl
      · split
        · rfl
        · rfl

/-- C5.  The next-drawer selection of `startNextRound` is the circular scan
from `lastDrawerIndex + 1` picking the first connected roster position
(part 1 characterises the scan; part 3 shows `lastDrawerIndex` and
`currentDrawer` are updated to the found position and player); the roster
itself is never altered by the rotation, so disconnected players keep
their slots (part 2); and for a fixed connected set, iterating the scan
once per connected player from any connected position visits every
connected position exactly once — the orbit is a permutation of the
connected-position list (part 4). -/
theorem C5_rotation :
    (∀ (ps : List Player) (last c : Nat),
      findNextDrawer ps (last + 1) ps.length = some c ↔
      ∃ a : Nat, a < ps.length ∧ connAt ps ((last + 1 + a) % ps.length) = true ∧
        (∀ b : Nat, b < a → connAt ps ((last + 1 + b) % ps.length) = false) ∧
        c = (last + 1 + a) % ps.length) ∧
    (∀ (choices : List String) (r : Room),
      (startNextRound choices r).1.players = r.players) ∧
    (∀ (choices : List String) (r : Room) (idx : Nat),
      2 ≤ (r.players.filter (fun x => x.isConnected)).length →
      findNextDrawer r.players (r.lastDrawerIndex + 1).toNat r.players.length = some idx →
      (startNextRound choices r).1.lastDrawerIndex = (idx : Int) ∧
      ∃ nd : Player, r.players[idx]? = some nd ∧
        (startNextRound choices r).1.gameState.currentDrawer = some nd.id) ∧
    (∀ (ps : List Player) (i : Nat), i ∈ connIdxs ps →
      (orbit ps i (connIdxs ps).length).Perm (connIdxs ps)) := by
  refine ⟨?_, ?_, ?_, ?_⟩
  · intro ps last c
    exact findNextDrawer_spec ps ps.length (last + 1) c
  · intro choices r
    exact startNextRound_players_eq choices r
  · intro choices r idx hcount hscan
    have hlenpos : 0 < r.players.length := by
      have := List.length_filter_le (fun x => x.isConnected) r.players
      omega
    have hidx : idx < r.players.length := by
      obtain ⟨a, _, _, _, rfl⟩ := (findNextDrawer_spec r.players r.players.length
        ((r.lastDrawerIndex + 1).toNat) idx).1 hscan
      exact Nat.mod_lt _ hlenpos
    have hnd : r.players[idx]? = some (r.players.get ⟨idx, hidx⟩) := by
      rw [List.getElem?_eq_getElem hidx]
      rfl
    rw [startNextRound]
    simp only []
    rw [if_neg (by omega)]
    rw [if_neg (by rintro ⟨h1, h2⟩; omega)]
    rw [hscan]
    simp only []
    rw [hnd]
    exact ⟨rfl, r.players.get ⟨idx, hidx⟩, rfl, rfl⟩
  · intro ps i hi
    exact orbit_perm ps i hi

/-- Witness for C5: with alice connected, bob disconnected and carol
connected, the rotation starting at position 0 visits positions 2 then 0,
a permutation of the connected positions. -/
theorem C5_witness :
    (0 : Nat) ∈ connIdxs [⟨0, "alice", 0, true, true, false⟩,
      ⟨1, "bob", 0, false, false, false⟩, ⟨2, "carol", 0, false, true, false⟩] ∧
    (orbit [⟨0, "alice", 0, true, true, false⟩, ⟨1, "bob", 0, false, false, false⟩,
        ⟨2, "carol", 0, false, true, false⟩] 0
      (connIdxs [⟨0, "alice", 0, true, true, false⟩, ⟨1, "bob", 0, false, false, false⟩,
        ⟨2, "carol", 0, false, true, false⟩]).length).Perm
      (connIdxs [⟨0, "alice", 0, true, true, false⟩, ⟨1, "bob", 0, false, false, false⟩,
        ⟨2, "carol", 0, false, true, false⟩]) :=
  ⟨by decide,
   C5_rotation.2.2.2 [⟨0, "alice", 0, true, true, false⟩,
     ⟨1, "bob", 0, false, false, false⟩, ⟨2, "carol", 0, false, true, false⟩] 0 (by decide)⟩

/-! ### Existence of witnesses through roster rewrites -/

lemma exists_updateFirst_preserve (pred : Player → Bool) (f : Player → Player)
    (phi : Player → Prop) (hf : ∀ x, phi x → phi (f x)) :
    ∀ l : List Player, (∃ p ∈ l, phi p) → ∃ p ∈ updateFirst pred f l, phi p
  | [], h => by simpa using h
  | x :: t, h => by
    obtain ⟨p, hp, hphi⟩ := h
    rw [updateFirst]
    by_cases hx : pred x = true
    · rw [if_pos hx]
      rcases List.mem_cons.1 hp with rfl | hp'
      · exact ⟨f p, List.mem_cons_self _ _, hf p hphi⟩
      · exact ⟨p, List.mem_cons_of_mem _ hp', hphi⟩
    · rw [if_neg hx]
      rcases List.mem_cons.1 hp with rfl | hp'
      · exact ⟨p, List.mem_cons_self _ _, hphi⟩
      · obtain ⟨p', hp'', hphi'⟩ :=
          exists_updateFirst_preserve pred f phi hf t ⟨p, hp', hphi⟩
        exact ⟨p', List.mem_cons_of_mem _ hp'', hphi'⟩

lemma mem_updateFirst_of_pred_false (pred : Player → Bool) (f : Player → Player)
    (p : Player) (hp : pred p = false) :
    ∀ l : List Player, p ∈ l → p ∈ updateFirst pred f l
  | [], h => by simpa using h
  | x :: t, h => by
    rw [updateFirst]
    by_cases hx : pred x = true
    · rw [if_pos hx]
      rcases List.mem_cons.1 h with rfl | h'
      · rw [hx] at hp; cases hp
      · exact List.mem_cons_of_mem _ h'
    · rw [if_neg hx]
      rcases List.mem_cons.1 h with rfl | h'
      · exact List.mem_cons_self _ _
      · exact List.mem_cons_of_mem _
          (mem_updateFirst_of_pred_false pred f p hp t h')

lemma exists_updateFirst_disjoint (pred : Player → Bool) (f : Player → Player)
    (phi : Player → Prop) (hdisj : ∀ x, phi x → pred x = false)
    (l : List Player) (h : ∃ p ∈ l, phi p) : ∃ p ∈ updateFirst pred f l, phi p := by
  obtain ⟨p, hp, hphi⟩ := h
  exact ⟨p, mem_updateFirst_of_pred_false pred f p (hdisj p hphi) l hp, hphi⟩

lemma exists_map_preserve (f : Player → Player) (phi : Player → Prop)
    (hf : ∀ x, phi x → phi (f x)) (l : List Player) (h : ∃ p ∈ l, phi p) :
    ∃ p ∈ l.map f, phi p := by
  obtain ⟨p, hp, hphi⟩ := h
  exact ⟨f p, List.mem_map_of_mem f hp, hf p hphi⟩

lemma exists_append_left (phi : Player → Prop) (l l2 : List Player)
    (h : ∃ p ∈ l, phi p) : ∃ p ∈ l ++ l2, phi p := by
  obtain ⟨p, hp, hphi⟩ := h
  exact ⟨p, List.mem_append_left l2 hp, hphi⟩

/-! ### C3: the host invariant -/

/-- Some roster entry is flagged as host. -/
def hasHostP (l : List Player) : Prop := ∃ p ∈ l, p.isHost = true

lemma hasHostP_joinRoom (sid : Nat) (u : String) (r : Room)
    (h : hasHostP r.players) : hasHostP (joinRoom sid u r).1.players := by
  simp only [joinRoom]
  split
  · exact h
  · split
    · exact exists_updateFirst_preserve (fun p => p.id == sid)
        (fun p => { p with isConnected := true, username := jsTrim u })
        (fun p => p.isHost = true) (fun x hx => hx) r.players h
    · split
      · exact h
      · split
        · exact h
        · exact exists_append_left _ _ _ h

lemma hasHostP_clientReconnected (sid : Nat) (r : Room)
    (h : hasHostP r.players) : hasHostP (clientReconnected sid r).1.players := by
  simp only [clientReconnected]
  split
  · exact exists_updateFirst_preserve (fun p => p.id == sid)
      (fun p => { p with isConnected := true })
      (fun p => p.isHost = true) (fun x hx => hx) r.players h
  · exact h

lemma hasHostP_startGame (sid : Nat) (reqRounds : Option Nat) (choices : List String)
    (r : Room) (h : hasHostP r.players) :
    hasHostP (startGame sid reqRounds choices r).1.players := by
  simp only [startGame.eq_def]
  split
  · exact h
  · split
    · exact h
    · split
      · exact h
      · split
        · exact h
        · exact exists_map_preserve resetScore (fun p => p.isHost = true)
            (fun x hx => hx) r.players h

lemma hasHostP_selectWord (sid : Nat) (w : String) (r : Room)
    (h : hasHostP r.players) : hasHostP (selectWord sid w r).1.players := by
  simp only [selectWord]
  split
  · exact h
  · split
    · exact h
    · exact h

lemma hasHostP_endRound (reason : String) (r : Room)
    (h : hasHostP r.players) : hasHostP (endRound reason r).1.players := by
  simp only [endRound]
  split
  · exact h
  · exact exists_map_preserve (fun p => { p with hasGuessedCorrectly := false })
      (fun p => p.isHost = true) (fun x hx => hx) r.players h

lemma hasHostP_applyGuessScore (sid : Nat) (gain : Int) (l : List Player)
    (h : hasHostP l) : hasHostP (applyGuessScore sid gain l) :=
  exists_updateFirst_preserve (fun q => q.id == sid)
    (fun q => { q with hasGuessedCorrectly := true, score := q.score + gain })
    (fun p => p.isHost = true) (fun x hx => hx) l h

lemma hasHostP_applyDrawerBonus (cd : Option Nat) (l : List Player)
    (h : hasHostP l) : hasHostP (applyDrawerBonus cd l) := by
  rcases cd with _ | d
  · exact h
  · simp only [applyDrawerBonus]
    split
    · exact exists_updateFirst_preserve (fun q => q.id == d)
        (fun q => { q with score := q.score + 20 })
        (fun p => p.isHost = true) (fun x hx => hx) l h
    · exact h

lemma hasHostP_guessOp (sid : Nat) (g : String) (r : Room)
    (h : hasHostP r.players) : hasHostP (guessOp sid g r).1.players := by
  simp only [guessOp]
  split
  · exact h
  · split
    · exact h
    · split
      · exact h
      · split
        · exact h
        · split
          · exact h
          · split
            · exact h
            · split
              · split
                · exact hasHostP_endRound _ _
                    (hasHostP_applyDrawerBonus _ _ (hasHostP_applyGuessScore _ _ _ h))
                · exact hasHostP_applyDrawerBonus _ _ (hasHostP_applyGuessScore _ _ _ h)
              · exact h

lemma hasHostP_handleTimerTick (phase : Status) (autoIdx : Nat) (fallback : String)
    (r : Room) (h : hasHostP r.players) :
    hasHostP (handleTimerTick phase autoIdx fallback r).1.players := by
  simp only [handleTimerTick]
  split
  · exact h
  · split
    · split
      · exact h
      · split
        · exact hasHostP_endRound _ _ h
        · exact h
    · exact h

lemma hasHostP_startNextRound (choices : List String) (r : Room)
    (h : hasHostP r.players) : hasHostP (startNextRound choices r).1.players := by
  rw [show (startNextRound choices r).1.players = r.players from
    startNextRound_players_eq choices r]
  exact h

lemma hasHostP_endGame (r : Room) (h : hasHostP r.players) :
    hasHostP (endGame r).1.players := h

lemma hasHostP_roundEndFire (choices : List String) (r : Room)
    (h : hasHostP r.players) : hasHostP (roundEndFire choices r).1.players := by
  simp only [roundEndFire]
  split
  · exact hasHostP_endGame _ h
  · exact hasHostP_startNextRound _ _ h

lemma hasHostP_ps2_disconnect (sid : Nat) (r : Room) (h : hasHostP r.players)
    (cond : Prop) [Decidable cond] :
    hasHostP (if cond then
        updateFirst (fun p => p.isConnected) (fun p => { p with isHost := true })
          (updateFirst (fun p => p.id == sid) (fun p => { p with isConnected := false })
            r.players)
      else
        updateFirst (fun p => p.id == sid) (fun p => { p with isConnected := false })
          r.players) := by
  split
  · exact exists_updateFirst_preserve (fun p => p.isConnected)
      (fun p => { p with isHost := true }) (fun p => p.isHost = true) (fun x hx => rfl) _
      (exists_updateFirst_preserve (fun p => p.id == sid)
        (fun p => { p with isConnected := false }) (fun p => p.isHost = true)
        (fun x hx => hx) r.players h)
  · exact exists_updateFirst_preserve (fun p => p.id == sid)
      (fun p => { p with isConnected := false }) (fun p => p.isHost = true)
      (fun x hx => hx) r.players h

lemma hasHostP_disconnect (sid : Nat) (r r' : Room)
    (hres : (handlePlayerDisconnect sid r).1 = some r')
    (h : hasHostP r.players) : hasHostP r'.players := by
  rw [handlePlayerDisconnect.eq_def] at hres
  simp only [] at hres
  revert hres
  split
  · intro hres
    injection hres with h2
    subst h2
    exact h
  · split
    · intro hres
      injection hres with h2
      subst h2
      exact h
    · split
      · intro hres
        exact Option.noConfusion hres
      · split
        · intro hres
          injection hres with h2
          subst h2
          exact hasHostP_endRound _ _ (hasHostP_ps2_disconnect sid r h _)
        · split
          · intro hres
            injection hres with h2
            subst h2
            exact hasHostP_ps2_disconnect sid r h _
          · intro hres
            injection hres with h2
            subst h2
            exact hasHostP_ps2_disconnect sid r h _

lemma reachable_hostExists {r : Room} (hr : Reachable r) : hasHostP r.players := by
  induction hr with
  | init sid uname h =>
    exact ⟨_, List.mem_cons_self _ _, rfl⟩
  | step hr hstep ih =>
    cases hstep with
    | join sid uname r => exact hasHostP_joinRoom sid uname _ ih
    | reconnect sid r => exact hasHostP_clientReconnected sid _ ih
    | start sid reqRounds choices r => exact hasHostP_startGame sid reqRounds choices _ ih
    | select sid w r => exact hasHostP_selectWord sid w _ ih
    | doGuess sid g r => exact hasHostP_guessOp sid g _ ih
    | tick phase autoIdx fallback r => exact hasHostP_handleTimerTick phase autoIdx fallback _ ih
    | fire choices r h => exact hasHostP_roundEndFire choices _ ih
    | disconnect sid r r' h => exact hasHostP_disconnect sid _ _ h ih

/-- C3 (amended).  In every reachable room state with at least one
connected player, at least one roster entry has `isHost = true`.  (The
original exactly-one claim fails: host reassignment never clears the old
host's flag — see the counterexample.) -/
theorem C3_hostExists (r : Room) (hr : Reachable r)
    (hconn : ∃ p ∈ r.players, p.isConnected = true) :
    ∃ p ∈ r.players, p.isHost = true :=
  reachable_hostExists hr

/-- The room produced by: alice creates, bob joins, alice disconnects.
Host reassignment promotes bob but leaves alice's flag set. -/
def cexRoomTwoHosts : Room :=
  let gs : GameState :=
    { status := Status.waiting, currentRound := 0, totalRounds := 3,
      timeLeft := 0, currentDrawer := none, word := "", wordHint := "",
      winnerId := none, roundDuration := 60 }
  { players := [⟨0, "alice", 0, true, false, false⟩, ⟨1, "bob", 0, true, true, false⟩],
    gameState := gs,
    wordChoices := [],
    gameTimerPhase := none,
    roundEndPending := false,
    lastDrawerIndex := -1 }

/-- Counterexample to C3 as stated: after the host disconnects, the
reachable state `cexRoomTwoHosts` has a connected player but two roster
entries with `isHost = true`, not exactly one. -/
theorem C3_counterexample :
    (handlePlayerDisconnect 0 (joinRoom 1 "bob" (createRoom 0 "alice")).1).1
      = some cexRoomTwoHosts ∧
    Reachable cexRoomTwoHosts ∧
    (∃ p ∈ cexRoomTwoHosts.players, p.isConnected = true) ∧
    (cexRoomTwoHosts.players.filter (fun p => p.isHost)).length = 2 :=
  ⟨by decide,
   Reachable.step
     (Reachable.step (Reachable.init 0 "alice" (by decide)) (Step.join 1 "bob" _))
     (Step.disconnect 0 _ _ (by decide)),
   by decide, by decide⟩

/-- Witness for C3 (amended) at the freshly created room. -/
theorem C3_witness :
    ∃ p ∈ (createRoom 5 "dana").players, p.isHost = true :=
  C3_hostExists (createRoom 5 "dana") (Reachable.init 5 "dana" (by decide)) (by decide)

/-! ### C9: the drawer invariant -/

/-- When set, `currentDrawer` points at a roster entry. -/
def drawerPresentP (r : Room) : Prop :=
  ∀ d : Nat, r.gameState.currentDrawer = some d → ∃ p ∈ r.players, p.id = d

/-- During `selecting`/`drawing` the drawer's roster entry is connected. -/
def drawerLiveP (r : Room) : Prop :=
  (r.gameState.status = Status.selecting ∨ r.gameState.status = Status.drawing) →
  ∀ d : Nat, r.gameState.currentDrawer = some d →
    ∃ p ∈ r.players, p.id = d ∧ p.isConnected = true

/-- The amended drawer invariant. -/
def drawerOkP (r : Room) : Prop := drawerPresentP r ∧ drawerLiveP r

lemma drawerOkP_joinRoom (sid : Nat) (u : String) (r : Room) (h : drawerOkP r) :
    drawerOkP (joinRoom sid u r).1 := by
  obtain ⟨h1, h2⟩ := h
  simp only [joinRoom]
  split
  · exact ⟨h1, h2⟩
  · split
    · constructor
      · intro d hd
        exact exists_updateFirst_preserve (fun p => p.id == sid)
          (fun p => { p with isConnected := true, username := jsTrim u })
          (fun p => p.id = d) (fun x hx => hx) r.players (h1 d hd)
      · intro hst d hd
        exact exists_updateFirst_preserve (fun p => p.id == sid)
          (fun p => { p with isConnected := true, username := jsTrim u })
          (fun p => p.id = d ∧ p.isConnected = true) (fun x hx => ⟨hx.1, rfl⟩)
          r.players (h2 hst d hd)
    · split
      · exact ⟨h1, h2⟩
      · split
        · exact ⟨h1, h2⟩
        · constructor
          · intro d hd
            exact exists_append_left (fun p => p.id = d) r.players _ (h1 d hd)
          · intro hst d hd
            exact exists_append_left (fun p => p.id = d ∧ p.isConnected = true)
              r.players _ (h2 hst d hd)

lemma drawerOkP_clientReconnected (sid : Nat) (r : Room) (h : drawerOkP r) :
    drawerOkP (clientReconnected sid r).1 := by
  obtain ⟨h1, h2⟩ := h
  simp only [clientReconnected]
  split
  · constructor
    · intro d hd
      exact exists_updateFirst_preserve (fun p => p.id == sid)
        (fun p => { p with isConnected := true })
        (fun p => p.id = d) (fun x hx => hx) r.players (h1 d hd)
    · intro hst d hd
      exact exists_updateFirst_preserve (fun p => p.id == sid)
        (fun p => { p with isConnected := true })
        (fun p => p.id = d ∧ p.isConnected = true) (fun x hx => ⟨hx.1, rfl⟩)
        r.players (h2 hst d hd)
  · exact ⟨h1, h2⟩

lemma drawerOkP_selectWord (sid : Nat) (w : String) (r : Room) (h : drawerOkP r) :
    drawerOkP (selectWord sid w r).1 := by
  obtain ⟨h1, h2⟩ := h
  simp only [selectWord]
  split
  · exact ⟨h1, h2⟩
  · split
    · exact ⟨h1, h2⟩
    · rename_i hguard hmem
      push_neg at hguard
      obtain ⟨hdw, hst⟩ := hguard
      constructor
      · intro d hd
        exact h1 d hd
      · intro _ d hd
        exact h2 (Or.inl hst) d hd

lemma drawerOkP_endRound_of_present (reason : String) (r : Room)
    (h1 : drawerPresentP r) : drawerOkP (endRound reason r).1 := by
  simp only [endRound]
  split
  · rename_i hend
    constructor
    · intro d hd
      exact h1 d hd
    · intro hst d hd
      rcases hend with he | he <;> rcases hst with hs | hs <;>
        exact Status.noConfusion (he.symm.trans hs)
  · constructor
    · intro d hd
      exact exists_map_preserve (fun p => { p with hasGuessedCorrectly := false })
        (fun p => p.id = d) (fun x hx => hx) r.players (h1 d hd)
    · intro hst d hd
      rcases hst with hs | hs <;> exact Status.noConfusion hs

lemma drawerOkP_startGame (sid : Nat) (reqRounds : Option Nat) (choices : List String)
    (r : Room) (h : drawerOkP r) : drawerOkP (startGame sid reqRounds choices r).1 := by
  obtain ⟨h1, h2⟩ := h
  simp only [startGame.eq_def]
  split
  · exact ⟨h1, h2⟩
  · split
    · exact ⟨h1, h2⟩
    · split
      · exact ⟨h1, h2⟩
      · split
        · exact ⟨h1, h2⟩
        · rename_i fd hfd
          have hfdmem : fd ∈ (r.players.map resetScore).filter (fun p => p.isConnected) := by
            rcases hforms : ((r.players.map resetScore).filter
                (fun p => p.isConnected)).find? (fun p => p.isHost && p.isConnected) with _ | x
            · rw [hforms] at hfd
              simp only [Option.orElse] at hfd
              cases hhead : ((r.players.map resetScore).filter
                  (fun p => p.isConnected)).head? with
              | none => rw [hhead] at hfd; cases hfd
              | some y =>
                rw [hhead] at hfd
                cases hfd
                exact List.mem_of_mem_head? hhead
            · rw [hforms] at hfd
              simp only [Option.orElse] at hfd
              cases hfd
              exact List.mem_of_find?_eq_some hforms
          have hfdc : fd.isConnected = true := (List.mem_filter.1 hfdmem).2
          have hfdps : fd ∈ r.players.map resetScore := (List.mem_filter.1 hfdmem).1
          constructor
          · intro d hd
            have hd' : fd.id = d := by
              have : some fd.id = some d := hd
              exact Option.some.inj this
            exact ⟨fd, hfdps, hd'⟩
          · intro _ d hd
            have hd' : fd.id = d := by
              have : some fd.id = some d := hd
              exact Option.some.inj this
            exact ⟨fd, hfdps, hd', hfdc⟩

lemma drawerOkP_guessOp (sid : Nat) (g : String) (r : Room) (h : drawerOkP r) :
    drawerOkP (guessOp sid g r).1 := by
  obtain ⟨h1, h2⟩ := h
  have hbonus : ∀ (cd : Option Nat) (l : List Player) (phi : Player → Prop),
      (∀ x, phi x → phi { x with score := x.score + 20 }) →
      (∃ p ∈ l, phi p) → ∃ p ∈ applyDrawerBonus cd l, phi p := by
    intro cd l phi hf hin
    rcases cd with _ | d0
    · exact hin
    · simp only [applyDrawerBonus]
      split
      · exact exists_updateFirst_preserve (fun q => q.id == d0)
          (fun q => { q with score := q.score + 20 }) phi hf l hin
      · exact hin
  have hlist_pres : ∀ d : Nat, r.gameState.currentDrawer = some d →
      ∃ p ∈ applyDrawerBonus r.gameState.currentDrawer
        (applyGuessScore sid (50 + (3 * max 0 r.gameState.timeLeft) / 2) r.players),
        p.id = d := by
    intro d hd
    refine hbonus _ _ (fun p => p.id = d) (fun x hx => hx) ?_
    exact exists_updateFirst_preserve (fun q => q.id == sid)
      (fun q => { q with hasGuessedCorrectly := true, score := q.score + (50 + (3 * max 0 r.gameState.timeLeft) / 2) })
      (fun p => p.id = d) (fun x hx => hx) r.players (h1 d hd)
  have hlist_live : (r.gameState.status = Status.selecting ∨
        r.gameState.status = Status.drawing) →
      ∀ d : Nat, r.gameState.currentDrawer = some d →
      ∃ p ∈ applyDrawerBonus r.gameState.currentDrawer
        (applyGuessScore sid (50 + (3 * max 0 r.gameState.timeLeft) / 2) r.players),
        p.id = d ∧ p.isConnected = true := by
    intro hst d hd
    refine hbonus _ _ (fun p => p.id = d ∧ p.isConnected = true)
      (fun x hx => ⟨hx.1, hx.2⟩) ?_
    exact exists_updateFirst_preserve (fun q => q.id == sid)
      (fun q => { q with hasGuessedCorrectly := true, score := q.score + (50 + (3 * max 0 r.gameState.timeLeft) / 2) })
      (fun p => p.id = d ∧ p.isConnected = true) (fun x hx => ⟨hx.1, hx.2⟩)
      r.players (h2 hst d hd)
  simp only [guessOp]
  split
  · exact ⟨h1, h2⟩
  · split
    · exact ⟨h1, h2⟩
    · split
      · exact ⟨h1, h2⟩
      · split
        · exact ⟨h1, h2⟩
        · split
          · exact ⟨h1, h2⟩
          · split
            · exact ⟨h1, h2⟩
            · split
              · split
                · exact drawerOkP_endRound_of_present _ _ (fun d hd => hlist_pres d hd)
                · exact ⟨fun d hd => hlist_pres d hd, fun hst d hd => hlist_live hst d hd⟩
              · exact ⟨h1, h2⟩

lemma drawerOkP_handleTimerTick (phase : Status) (autoIdx : Nat) (fallback : String)
    (r : Room) (h : drawerOkP r) :
    drawerOkP (handleTimerTick phase autoIdx fallback r).1 := by
  obtain ⟨h1, h2⟩ := h
  simp only [handleTimerTick]
  split
  · exact ⟨h1, h2⟩
  · rename_i hguard
    have hphase : r.gameState.status = phase := not_not.1 hguard
    split
    · split
      · rename_i hsel
        constructor
        · intro d hd
          exact h1 d hd
        · intro _ d hd
          exact h2 (Or.inl (hphase.trans hsel)) d hd
      · split
        · exact drawerOkP_endRound_of_present _ _ (fun d hd => h1 d hd)
        · exact ⟨fun d hd => h1 d hd, fun hst d hd => h2 hst d hd⟩
    · exact ⟨fun d hd => h1 d hd, fun hst d hd => h2 hst d hd⟩

lemma drawerOkP_startNextRound (choices : List String) (r : Room) (h : drawerOkP r) :
    drawerOkP (startNextRound choices r).1 := by
  obtain ⟨h1, h2⟩ := h
  simp only [startNextRound]
  split
  · exact ⟨fun d hd => Option.noConfusion hd, fun hst d hd => Option.noConfusion hd⟩
  · split
    · exact ⟨fun d hd => Option.noConfusion hd, fun hst d hd => Option.noConfusion hd⟩
    · split
      · constructor
        · intro d hd
          exact h1 d hd
        · intro hst d hd
          rcases hst with hs | hs <;> exact Status.noConfusion hs
      · rename_i idx hscan
        split
        · exact ⟨fun d hd => h1 d hd, fun hst d hd => h2 hst d hd⟩
        · rename_i nd hnd
          have hndmem : nd ∈ r.players := List.getElem?_mem hnd
          have hidxconn : connAt r.players idx = true := by
            obtain ⟨a, _, hconn, _, rfl⟩ := (findNextDrawer_spec r.players r.players.length
              ((r.lastDrawerIndex + 1).toNat) idx).1 hscan
            exact hconn
          have hndconn : nd.isConnected = true := by
            rw [connAt, hnd] at hidxconn
            exact hidxconn
          constructor
          · intro d hd
            have hd' : nd.id = d := Option.some.inj hd
            exact ⟨nd, hndmem, hd'⟩
          · intro _ d hd
            have hd' : nd.id = d := Option.some.inj hd
            exact ⟨nd, hndmem, hd', hndconn⟩

lemma drawerOkP_endGame (r : Room) (h : drawerOkP r) : drawerOkP (endGame r).1 := by
  obtain ⟨h1, h2⟩ := h
  constructor
  · intro d hd
    exact h1 d hd
  · intro hst d hd
    rcases hst with hs | hs <;> exact Status.noConfusion hs

lemma drawerOkP_roundEndFire (choices : List String) (r : Room) (h : drawerOkP r) :
    drawerOkP (roundEndFire choices r).1 := by
  simp only [roundEndFire]
  split
  · exact drawerOkP_endGame r h
  · exact drawerOkP_startNextRound choices r h

lemma drawerOkP_disconnect (sid : Nat) (r r' : Room)
    (hres : (handlePlayerDisconnect sid r).1 = some r')
    (h : drawerOkP r) : drawerOkP r' := by
  obtain ⟨h1, h2⟩ := h
  rw [handlePlayerDisconnect.eq_def] at hres
  simp only [] at hres
  revert hres
  split
  · intro hres
    injection hres with hres
    subst hres
    exact ⟨h1, h2⟩
  · split
    · intro hres
      injection hres with hres
      subst hres
      exact ⟨h1, h2⟩
    · split
      · intro hres
        exact Option.noConfusion hres
      · split
        · intro hres
          injection hres with hres
          subst hres
          refine drawerOkP_endRound_of_present _ _ ?_
          intro d hd
          have base := h1 d hd
          split
          · exact exists_updateFirst_preserve (fun p => p.isConnected)
              (fun p => { p with isHost := true }) (fun p => p.id = d) (fun x hx => hx) _
              (exists_updateFirst_preserve (fun p => p.id == sid)
                (fun p => { p with isConnected := false }) (fun p => p.id = d)
                (fun x hx => hx) r.players base)
          · exact exists_updateFirst_preserve (fun p => p.id == sid)
              (fun p => { p with isConnected := false }) (fun p => p.id = d)
              (fun x hx => hx) r.players base
        · split
          · intro hres
            injection hres with hres
            subst hres
            exact ⟨fun d hd => Option.noConfusion hd, fun hst d hd => Option.noConfusion hd⟩
          · rename_i hnotdrawer hnotsmall
            intro hres
            injection hres with hres
            subst hres
            constructor
            · intro d hd
              have base := h1 d hd
              split
              · exact exists_updateFirst_preserve (fun p => p.isConnected)
                  (fun p => { p with isHost := true }) (fun p => p.id = d) (fun x hx => hx) _
                  (exists_updateFirst_preserve (fun p => p.id == sid)
                    (fun p => { p with isConnected := false }) (fun p => p.id = d)
                    (fun x hx => hx) r.players base)
              · exact exists_updateFirst_preserve (fun p => p.id == sid)
                  (fun p => { p with isConnected := false }) (fun p => p.id = d)
                  (fun x hx => hx) r.players base
            · intro hst d hd
              have hd0 : r.gameState.currentDrawer = some d := hd
              have hst0 : r.gameState.status = Status.selecting ∨
                  r.gameState.status = Status.drawing := hst
              have hdne : d ≠ sid := by
                intro he
                exact hnotdrawer ⟨by rw [← he]; exact hd0, hst0⟩
              have base := h2 hst0 d hd0
              have hdisj : ∀ x : Player, (x.id = d ∧ x.isConnected = true) →
                  (x.id == sid) = false := by
                intro x hx
                rw [hx.1]
                simp only [beq_eq_false_iff_ne, ne_eq]
                exact hdne
              split
              · exact exists_updateFirst_preserve (fun p => p.isConnected)
                  (fun p => { p with isHost := true })
                  (fun p => p.id = d ∧ p.isConnected = true) (fun x hx => ⟨hx.1, hx.2⟩) _
                  (exists_updateFirst_disjoint (fun p => p.id == sid)
                    (fun p => { p with isConnected := false })
                    (fun p => p.id = d ∧ p.isConnected = true) hdisj r.players base)
              · exact exists_updateFirst_disjoint (fun p => p.id == sid)
                  (fun p => { p with isConnected := false })
                  (fun p => p.id = d ∧ p.isConnected = true) hdisj r.players base

lemma reachable_drawerOk {r : Room} (hr : Reachable r) : drawerOkP r := by
  induction hr with
  | init sid uname h =>
    exact ⟨fun d hd => Option.noConfusion hd, fun hst d hd => Option.noConfusion hd⟩
  | step hr hstep ih =>
    cases hstep with
    | join sid uname r => exact drawerOkP_joinRoom sid uname _ ih
    | reconnect sid r => exact drawerOkP_clientReconnected sid _ ih
    | start sid reqRounds choices r => exact drawerOkP_startGame sid reqRounds choices _ ih
    | select sid w r => exact drawerOkP_selectWord sid w _ ih
    | doGuess sid g r => exact drawerOkP_guessOp sid g _ ih
    | tick phase autoIdx fallback r => exact drawerOkP_handleTimerTick phase autoIdx fallback _ ih
    | fire choices r h => exact drawerOkP_roundEndFire choices _ ih
    | disconnect sid r r' h => exact drawerOkP_disconnect sid _ _ h ih

/-- C9 (amended).  In every reachable room state, a set `currentDrawer`
identifies a player present in the roster, and while the status is
`selecting` or `drawing` that player is moreover connected.  (The original
claim — connectivity in every state, including the `round_end`/`game_end`
states reached after the drawer disconnects mid-round — fails: `endRound`
keeps the disconnected drawer's id, see the counterexample.) -/
theorem C9_drawer_invariant (r : Room) (hr : Reachable r) :
    (∀ d : Nat, r.gameState.currentDrawer = some d → ∃ p ∈ r.players, p.id = d) ∧
    ((r.gameState.status = Status.selecting ∨ r.gameState.status = Status.drawing) →
      ∀ d : Nat, r.gameState.currentDrawer = some d →
        ∃ p ∈ r.players, p.id = d ∧ p.isConnected = true) :=
  reachable_drawerOk hr

/-- The room produced by: alice creates, bob joins, alice starts and picks
"apple", then alice (the drawer) disconnects mid-`drawing`. -/
def cexRoomDrawerGone : Room :=
  let gs : GameState :=
    { status := Status.round_end, currentRound := 1, totalRounds := 3,
      timeLeft := 5, currentDrawer := some 0, word := "apple",
      wordHint := "_ _ _ _ _", winnerId := none, roundDuration := 60 }
  { players := [⟨0, "alice", 0, true, false, false⟩, ⟨1, "bob", 0, true, true, false⟩],
    gameState := gs,
    wordChoices := ["apple", "car", "dog"],
    gameTimerPhase := none,
    roundEndPending := true,
    lastDrawerIndex := 0 }

/-- Counterexample to C9 as stated: after the drawer disconnects
mid-round, the reachable `round_end` state still has
`currentDrawer = some 0` although every roster entry with id 0 is
disconnected. -/
theorem C9_counterexample :
    (handlePlayerDisconnect 0 (selectWord 0 "apple" (startGame 0 none
        ["apple", "car", "dog"] (joinRoom 1 "bob" (createRoom 0 "alice")).1).1).1).1
      = some cexRoomDrawerGone ∧
    Reachable cexRoomDrawerGone ∧
    cexRoomDrawerGone.gameState.status = Status.round_end ∧
    cexRoomDrawerGone.gameState.currentDrawer = some 0 ∧
    (∀ p ∈ cexRoomDrawerGone.players, p.id = 0 → p.isConnected = false) :=
  ⟨by decide,
   Reachable.step
     (Reachable.step
       (Reachable.step
         (Reachable.step (Reachable.init 0 "alice" (by decide)) (Step.join 1 "bob" _))
         (Step.start 0 none ["apple", "car", "dog"] _))
       (Step.select 0 "apple" _))
     (Step.disconnect 0 _ _ (by decide)),
   by decide, by decide, by decide⟩

/-- Witness for C9 (amended) at the concrete `selecting` state reached
after alice starts the game: the drawer id 0 belongs to a connected
roster entry. -/
theorem C9_witness :
    ∃ p ∈ (startGame 0 none ["apple", "car", "dog"]
        (joinRoom 1 "bob" (createRoom 0 "alice")).1).1.players,
      p.id = 0 ∧ p.isConnected = true :=
  (C9_drawer_invariant _
    (Reachable.step
      (Reachable.step (Reachable.init 0 "alice" (by decide)) (Step.join 1 "bob" _))
      (Step.start 0 none ["apple", "car", "dog"] _))).2 (Or.inl (by decide)) 0 (by decide)

end Sketch
